import Mathlib

set_option maxHeartbeats 1000000

/-!
Verification of the damenweb/images browser admin utility against its
specification.  The embedding covers, from src/script.js and
src/unnamed/part_000: the image locator (extractImages,
findImagesInContent), the node patcher inside the two write handlers, the
change tracker (handleInputChange, handleCellChange), and the write-back
sequencers (the send-to-server click handler and
sendModificationsToServer).

JavaScript values reaching this code are JSON trees (the Storyblok API
returns parsed JSON), so the embedding models them with the Json type
below.  Property access, truthiness, strict equality and numeric coercion
are modelled per JavaScript semantics on JSON-shaped values; a thrown
TypeError (property access on null or undefined) is modelled with
Except Unit.  JSON numbers are modelled as integers: no claim depends on
fractional values, and JavaScript ToNumber of a string is modelled for
integer literals only (fractional or exotic numeric strings coerce to NaN
in the model; this corner is unreachable in every statement below).
-/

/-- A JSON value as delivered by the Storyblok API. -/
inductive Json where
  | null : Json
  | bool : Bool → Json
  | num : Int → Json
  | str : String → Json
  | arr : List Json → Json
  | obj : List (String × Json) → Json
deriving Inhabited

/-- JavaScript truthiness of a JSON value (undefined is handled by callers
through Option). -/
def truthy : Json → Bool
  | .null => false
  | .bool b => b
  | .num n => n != 0
  | .str s => s != ""
  | .arr _ => true
  | .obj _ => true

/-- Own-property lookup on an object's field list; none models undefined. -/
def lookupField : List (String × Json) → String → Option Json
  | [], _ => none
  | (a, v) :: rest, k => if a == k then some v else lookupField rest k

/-- JavaScript property read on a non-null JSON value.  Arrays and strings
expose length; other primitives have no own properties.  Callers model the
TypeError of reading a property of null or undefined. -/
def getField : Json → String → Option Json
  | .obj fs, k => lookupField fs k
  | .arr xs, k => if k == "length" then some (.num xs.length) else none
  | .str s, k => if k == "length" then some (.num s.length) else none
  | _, _ => none

/-- JavaScript index-0 read (v[0]) on a non-null JSON value. -/
def getIndex0 : Json → Option Json
  | .arr xs => xs.head?
  | .str s => (s.data.head?).map (fun c => Json.str (String.mk [c]))
  | .obj fs => lookupField fs "0"
  | _ => none

/-- JavaScript ToNumber of a string, for integer literals (none models NaN). -/
def strToNumber (s : String) : Option Int :=
  let t := s.trim
  if t == "" then some 0
  else if t.startsWith "-" then ((t.drop 1).toNat?).map (fun n => -(n : Int))
  else if t.startsWith "+" then ((t.drop 1).toNat?).map (fun n => (n : Int))
  else (t.toNat?).map (fun n => (n : Int))

/-- JavaScript ToNumber of a JSON value (none models NaN).  Arrays and
objects go through ToPrimitive in JavaScript; the model maps them to NaN,
a corner no statement below reaches. -/
def jsToNumber : Json → Option Int
  | .null => some 0
  | .bool b => some (if b then 1 else 0)
  | .num n => some n
  | .str s => strToNumber s
  | .arr _ => none
  | .obj _ => none

/-- The JavaScript comparison (v > 0) applied to a property-read result;
undefined compares false. -/
def jsGtZero : Option Json → Bool
  | none => false
  | some j =>
    match jsToNumber j with
    | none => false
    | some n => 0 < n

/-- Strict equality (===) of a property-read result against a string
literal. -/
def strictEqStr : Option Json → String → Bool
  | some (.str t), s => t == s
  | _, _ => false

/-- Truthiness of a property-read result; undefined is falsy. -/
def truthyOpt : Option Json → Bool
  | none => false
  | some j => truthy j

/-- The qualification test of extractImages (src/script.js line 149):
obj.component === 'bynder_image' && obj.image && obj.image.length > 0 &&
obj.image[0].databaseId.  Short-circuit order is preserved; the final
conjunct dereferences obj.image[0] and throws when that read yields null
or undefined. -/
def extractProbe (fs : List (String × Json)) : Except Unit Bool :=
  if strictEqStr (lookupField fs "component") "bynder_image" = false then .ok false
  else
    match lookupField fs "image" with
    | none => .ok false
    | some v =>
      if truthy v = false then .ok false
      else if jsGtZero (getField v "length") = false then .ok false
      else
        match getIndex0 v with
        | none => .error ()
        | some .null => .error ()
        | some e => .ok (truthyOpt (getField e "databaseId"))

mutual
/-- extractImages (src/script.js lines 141-166): depth-first collection of
every object passing extractProbe, the node itself before its
descendants; arrays recurse over elements, objects over field values.
Primitives and null return the empty list.  An array never passes the
probe (its component read is undefined), so the self-check is elided in
the arr branch. -/
def extractImages : Json → Except Unit (List Json)
  | .obj fs =>
    match extractProbe fs with
    | .error e => .error e
    | .ok b =>
      match extractImagesFields fs with
      | .error e => .error e
      | .ok rest => .ok ((if b then [Json.obj fs] else []) ++ rest)
  | .arr xs => extractImagesList xs
  | _ => .ok []

/-- Element loop of extractImages over an array. -/
def extractImagesList : List Json → Except Unit (List Json)
  | [] => .ok []
  | x :: xs =>
    match extractImages x with
    | .error e => .error e
    | .ok a =>
      match extractImagesList xs with
      | .error e => .error e
      | .ok b => .ok (a ++ b)

/-- Key loop of extractImages over an object's own fields. -/
def extractImagesFields : List (String × Json) → Except Unit (List Json)
  | [] => .ok []
  | (_, v) :: fs =>
    match extractImages v with
    | .error e => .error e
    | .ok a =>
      match extractImagesFields fs with
      | .error e => .error e
      | .ok b => .ok (a ++ b)
end

/-- The qualification that extractProbe decides when it does not throw:
component tag present, image value truthy with positive JS length, and a
truthy databaseId on the first element. -/
def qualifiesImageNode (fs : List (String × Json)) : Bool :=
  strictEqStr (lookupField fs "component") "bynder_image" &&
    match lookupField fs "image" with
    | none => false
    | some v =>
      truthy v && jsGtZero (getField v "length") &&
        match getIndex0 v with
        | none => false
        | some e => truthyOpt (getField e "databaseId")

mutual
/-- Specification-side collector: the depth-first preorder sequence of
object nodes satisfying qualifiesImageNode. -/
def collectImageNodes : Json → List Json
  | .obj fs => (if qualifiesImageNode fs then [Json.obj fs] else []) ++ collectNodesFields fs
  | .arr xs => collectNodesList xs
  | _ => []

/-- collectImageNodes over array elements. -/
def collectNodesList : List Json → List Json
  | [] => []
  | x :: xs => collectImageNodes x ++ collectNodesList xs

/-- collectImageNodes over object field values. -/
def collectNodesFields : List (String × Json) → List Json
  | [] => []
  | (_, v) :: fs => collectImageNodes v ++ collectNodesFields fs
end

/-- The qualification exactly as claim C1 words it: component tag
'bynder_image', nested image array non-empty, and a non-null numeric
databaseId on its first element. -/
def claimQualifies (fs : List (String × Json)) : Bool :=
  strictEqStr (lookupField fs "component") "bynder_image" &&
    match lookupField fs "image" with
    | some (.arr (e :: _)) =>
      (match e with
       | .obj efs =>
         (match lookupField efs "databaseId" with
          | some (.num _) => true
          | _ => false)
       | _ => false)
    | _ => false

mutual
/-- Claim-side collector for C1: depth-first sequence of nodes satisfying
claimQualifies. -/
def claimImageNodes : Json → List Json
  | .obj fs => (if claimQualifies fs then [Json.obj fs] else []) ++ claimNodesFields fs
  | .arr xs => claimNodesList xs
  | _ => []

/-- claimImageNodes over array elements. -/
def claimNodesList : List Json → List Json
  | [] => []
  | x :: xs => claimImageNodes x ++ claimNodesList xs

/-- claimImageNodes over object field values. -/
def claimNodesFields : List (String × Json) → List Json
  | [] => []
  | (_, v) :: fs => claimImageNodes v ++ claimNodesFields fs
end

/-- Error-propagating concatenation of two traversal results, the shape
shared by every accumulation loop in both locators: a thrown TypeError in
either part aborts the whole traversal. -/
def exceptConcat {A : Type} (step rest : Except Unit (List A)) : Except Unit (List A) :=
  match step with
  | .error e => .error e
  | .ok a =>
    match rest with
    | .error e => .error e
    | .ok b => .ok (a ++ b)

/-- Recognizer for the JSON null value: a property read on it throws. -/
def isNullJson : Json → Bool
  | .null => true
  | _ => false

/-- One record produced by findImagesInContent (src/unnamed/part_000 lines
144-149): the first image descriptor, the wrapper's alt value (none models
undefined), the field name holding the array, and the wrapper's _uid. -/
structure FoundImage where
  bynderImage : Json
  alt : Option Json
  parentField : String
  uid : Option Json

/-- The inner wrapper test of findImagesInContent (part_000 line 143):
imageWrapper.image && Array.isArray(imageWrapper.image) &&
imageWrapper.image.length > 0 && imageWrapper.image[0].databaseId.
A null wrapper throws on the first property read; a null first descriptor
throws on the databaseId read. -/
def wrapperTest (w : Json) (k : String) : Except Unit (Option FoundImage) :=
  match w with
  | .null => .error ()
  | .obj wfs =>
    match lookupField wfs "image" with
    | none => .ok none
    | some v =>
      if truthy v = false then .ok none
      else
        match v with
        | .arr (e :: _) =>
          if isNullJson e then .error ()
          else if truthyOpt (getField e "databaseId") then
            .ok (some ⟨e, lookupField wfs "alt", k, lookupField wfs "_uid"⟩)
          else .ok none
        | _ => .ok none
  | _ => .ok none

/-- The forEach over a field's array whose first element carried the
component tag (part_000 lines 142-150). -/
def wrapperLoop : List Json → String → Except Unit (List FoundImage)
  | [], _ => .ok []
  | w :: ws, k =>
    match wrapperTest w k with
    | .error e => .error e
    | .ok r =>
      match wrapperLoop ws k with
      | .error e => .error e
      | .ok rest => .ok ((match r with | some f => [f] | none => []) ++ rest)

mutual
/-- findImagesInContent (src/unnamed/part_000 lines 130-160).  Arrays
recurse element-wise keeping the parent field; on an object, a field
holding a non-empty array whose first element is tagged 'bynder_image' is
scanned wrapper-by-wrapper (no recursion into it), any other object-typed
field value is recursed into under its own key, and primitive or null
field values are skipped.  The first-element component read throws when
that element is null. -/
def findImagesInContent : Json → String → Except Unit (List FoundImage)
  | .arr xs, pf => findImagesList xs pf
  | .obj fs, _ => findImagesFields fs
  | _, _ => .ok []

/-- findImagesInContent over array elements (part_000 lines 133-136). -/
def findImagesList : List Json → String → Except Unit (List FoundImage)
  | [], _ => .ok []
  | x :: xs, pf => exceptConcat (findImagesInContent x pf) (findImagesList xs pf)

/-- findImagesInContent over an object's fields (part_000 lines 138-156). -/
def findImagesFields : List (String × Json) → Except Unit (List FoundImage)
  | [] => .ok []
  | (k, v) :: fs =>
    exceptConcat
      (match v with
       | .arr (e0 :: rest) =>
         if isNullJson e0 then (.error () : Except Unit (List FoundImage))
         else if strictEqStr (getField e0 "component") "bynder_image" then
           wrapperLoop (e0 :: rest) k
         else findImagesInContent (.arr (e0 :: rest)) k
       | .arr [] => findImagesInContent (.arr []) k
       | .obj ofs => findImagesInContent (.obj ofs) k
       | _ => .ok [])
      (findImagesFields fs)
end

/-- Absence of the TypeError condition in extractProbe: the probe reaches
the image[0] dereference only on a tagged node with truthy image of
positive JS length, and throws there iff that read yields null or
undefined. -/
def extractProbeSafe (fs : List (String × Json)) : Bool :=
  if strictEqStr (lookupField fs "component") "bynder_image" = false then true
  else
    match lookupField fs "image" with
    | none => true
    | some v =>
      if truthy v = false then true
      else if jsGtZero (getField v "length") = false then true
      else
        match getIndex0 v with
        | none => false
        | some .null => false
        | some _ => true

mutual
/-- All nodes of the tree pass extractProbeSafe: extractImages cannot
throw. -/
def extractSafe : Json → Bool
  | .obj fs => extractProbeSafe fs && extractSafeFields fs
  | .arr xs => extractSafeList xs
  | _ => true

/-- extractSafe over array elements. -/
def extractSafeList : List Json → Bool
  | [] => true
  | x :: xs => extractSafe x && extractSafeList xs

/-- extractSafe over object field values. -/
def extractSafeFields : List (String × Json) → Bool
  | [] => true
  | (_, v) :: fs => extractSafe v && extractSafeFields fs
end

/-- Absence of the TypeError conditions in the wrapper test of
findImagesInContent: a null wrapper, or a null first descriptor behind a
truthy image array, would throw. -/
def wrapperSafe : Json → Bool
  | .null => false
  | .obj wfs =>
    (match lookupField wfs "image" with
     | none => true
     | some v =>
       if truthy v = false then true
       else
         match v with
         | .arr (e :: _) => if isNullJson e then false else true
         | _ => true)
  | _ => true

mutual
/-- No TypeError condition anywhere in a findImagesInContent traversal:
no object field holds a non-empty array with a null first element, tagged
arrays contain only safe wrappers, and every position the traversal
recurses into is safe in turn. -/
def findSafe : Json → Bool
  | .arr xs => findSafeList xs
  | .obj fs => findSafeFields fs
  | _ => true

/-- findSafe over array elements. -/
def findSafeList : List Json → Bool
  | [] => true
  | x :: xs => findSafe x && findSafeList xs

/-- findSafe over an object's fields, mirroring the branch structure of
findImagesFields. -/
def findSafeFields : List (String × Json) → Bool
  | [] => true
  | (_, v) :: fs =>
    (match v with
     | .arr (e0 :: rest) =>
       if isNullJson e0 then false
       else if strictEqStr (getField e0 "component") "bynder_image" then
         (e0 :: rest).all wrapperSafe
       else findSafe (.arr (e0 :: rest))
     | .arr [] => true
     | .obj ofs => findSafe (.obj ofs)
     | _ => true) && findSafeFields fs
end

/-- Index of the last '/' in a character list, as
String.prototype.lastIndexOf returns it (none models -1).  The model
counts characters; the source counts UTF-16 units, which agree on every
string these claims quantify over. -/
def lastIndexOfSlash : List Char → Option Nat
  | [] => none
  | c :: rest =>
    match lastIndexOfSlash rest with
    | some i => some (i + 1)
    | none => if c = '/' then some 0 else none

/-- The transform-URL derivation of the script.js send handler (lines
779-787): substring up to and including the last '/', then the new file
name; with no '/' the whole URL is replaced by the bare file name. -/
def spliceTransformUrl (url newName : String) : String :=
  match lastIndexOfSlash url.data with
  | some i => String.mk (url.data.take (i + 1)) ++ newName
  | none => newName

/-- The transform-URL derivation of part_000's updateImageRecursive
(lines 694-699): identical to spliceTransformUrl except that the
no-separator branch is absent, leaving the URL unchanged. -/
def spliceTransformUrlPart000 (url newName : String) : String :=
  match lastIndexOfSlash url.data with
  | some i => String.mk (url.data.take (i + 1)) ++ newName
  | none => url

/-- The whitespace-collapsing pass of the regex replace(\s+ for '-') in
part_000 line 682: every maximal run of whitespace becomes a single '-'.
The flag records whether the previous character was whitespace. -/
def collapseWhitespace : Bool → List Char → List Char
  | _, [] => []
  | prevWs, c :: rest =>
    if c.isWhitespace then
      (if prevWs then [] else ['-']) ++ collapseWhitespace true rest
    else c :: collapseWhitespace false rest

/-- The file-name normalization of part_000 line 682:
replace(\s+ for '-') then toLowerCase.  Char.isWhitespace covers the
ASCII whitespace of the JavaScript \s class, and Char.toLower its ASCII
lowercasing; the claims quantify over such strings. -/
def normalizeFileName (s : String) : String :=
  String.mk ((collapseWhitespace false s.data).map Char.toLower)

/-- The three fields of one image node that both patchers read and write:
the descriptor's display name, the wrapper's alt text, and the
files.transformBaseUrl.url string. -/
structure ImgState where
  name : String
  alt : String
  transformUrl : String

/-- One pending edit of the script.js tracker: the proposed values the
send handler applies. -/
structure ScriptMod where
  newFileName : String
  newAlt : String

/-- The node mutation of the script.js send handler (lines 768-788):
name and transform URL change only when the proposed file name differs
from the current name in the freshly fetched tree; alt changes only when
it differs. -/
def applyModScript (st : ImgState) (mod : ScriptMod) : ImgState :=
  let fileNameChanged := st.name != mod.newFileName
  ⟨if fileNameChanged then mod.newFileName else st.name,
   if st.alt != mod.newAlt then mod.newAlt else st.alt,
   if fileNameChanged then spliceTransformUrl st.transformUrl mod.newFileName
   else st.transformUrl⟩

/-- One pending edit of the part_000 tracker: proposed and original
values for both fields (handleCellChange snapshots the originals). -/
structure P0Mod where
  fileName : String
  altText : String
  originalFileName : String
  originalAlt : String

/-- The wrapper mutation of part_000's updateImageRecursive (lines
680-700): the pending file name is first normalized, the change test
compares the normalized name against the stored original (not the tree's
current name), and the no-separator URL branch is absent. -/
def applyModPart000 (st : ImgState) (mod : P0Mod) : ImgState :=
  let fn := normalizeFileName mod.fileName
  let changed := fn != mod.originalFileName
  ⟨if changed then fn else st.name,
   if mod.altText != mod.originalAlt then mod.altText else st.alt,
   if changed then spliceTransformUrlPart000 st.transformUrl fn else st.transformUrl⟩

/-- The tracker entry for one (story, image) key as a function of the
original snapshot and the current field values: present exactly when a
field differs.  Pairs are (file name, alt text). -/
def trackerState (orig cur : String × String) : Option (String × String) :=
  if cur.1 != orig.1 || cur.2 != orig.2 then some cur else none

/-- handleInputChange (src/script.js lines 613-658), projected to one
(story, image) key: each change event reads the current values of both
inputs; a difference from the originals stores the entry (the stored
record also carries the originals and the original transform URL, which
the projection drops), otherwise the entry is deleted, and the story is
dropped from the changed set when its last entry goes. -/
def handleInputChange (orig : String × String) (_cur : Option (String × String))
    (ev : String × String) : Option (String × String) :=
  if ev.1 != orig.1 || ev.2 != orig.2 then some ev else none

/-- Which of the two tracked fields a part_000 cell-change event edits. -/
inductive EditField where
  | fileName : EditField
  | altText : EditField

/-- handleCellChange (src/unnamed/part_000 lines 304-355): an event
carries one field's new value; a missing entry is recreated from the
original snapshot, the field is updated, and the entry is removed when
both fields equal their originals again. -/
def handleCellChange (orig : String × String) (cur : Option (String × String))
    (ev : EditField × String) : Option (String × String) :=
  let entry := cur.getD orig
  let entry2 :=
    match ev.1 with
    | .fileName => (ev.2, entry.2)
    | .altText => (entry.1, ev.2)
  if entry2.1 != orig.1 || entry2.2 != orig.2 then some entry2 else none

/-- Specification-side current field values under script.js events: each
event replaces both values. -/
def currentScript (orig : String × String) (evs : List (String × String)) : String × String :=
  evs.foldl (fun _ e => e) orig

/-- Specification-side current field values under part_000 events: each
event replaces one field. -/
def applyCellEv (cur : String × String) (ev : EditField × String) : String × String :=
  match ev.1 with
  | .fileName => (ev.2, cur.2)
  | .altText => (cur.1, ev.2)

/-- Specification-side current field values for a part_000 event list. -/
def currentPart000 (orig : String × String) (evs : List (EditField × String)) : String × String :=
  evs.foldl applyCellEv orig

/-- The match test of findImageInStoryContentById (src/script.js lines
179-184): component tag, truthy image with positive JS length, then the
databaseId of image[0] (read throws on null or undefined) strictly
equal to the tracked id string (the DOM dataset round-trips the id as a
string). -/
def findProbe (bid : String) (fs : List (String × Json)) : Except Unit Bool :=
  if strictEqStr (lookupField fs "component") "bynder_image" = false then .ok false
  else
    match lookupField fs "image" with
    | none => .ok false
    | some v =>
      if truthy v = false then .ok false
      else if jsGtZero (getField v "length") = false then .ok false
      else
        match getIndex0 v with
        | none => .error ()
        | some .null => .error ()
        | some e => .ok (strictEqStr (getField e "databaseId") bid)

mutual
/-- findImageInStoryContentById (src/script.js lines 175-203): depth-first
preorder search for the first node matching findProbe; arrays and objects
are recursed, primitives yield nothing. -/
def findImageInStoryContentById : Json → String → Except Unit (Option Json)
  | .obj fs, bid =>
    match findProbe bid fs with
    | .error e => .error e
    | .ok true => .ok (some (.obj fs))
    | .ok false => findImageFields fs bid
  | .arr xs, bid => findImageList xs bid
  | _, _ => .ok none

/-- findImageInStoryContentById over array elements, stopping at the
first hit. -/
def findImageList : List Json → String → Except Unit (Option Json)
  | [], _ => .ok none
  | x :: xs, bid =>
    match findImageInStoryContentById x bid with
    | .error e => .error e
    | .ok (some r) => .ok (some r)
    | .ok none => findImageList xs bid

/-- findImageInStoryContentById over object field values, stopping at the
first hit. -/
def findImageFields : List (String × Json) → String → Except Unit (Option Json)
  | [], _ => .ok none
  | (_, v) :: fs, bid =>
    match findImageInStoryContentById v bid with
    | .error e => .error e
    | .ok (some r) => .ok (some r)
    | .ok none => findImageFields fs bid
end

/-- Replace (or append, as JavaScript property creation does) one field
of an object. -/
def setField : List (String × Json) → String → Json → List (String × Json)
  | [], k, val => [(k, val)]
  | (a, v) :: rest, k, val =>
    if a == k then (a, val) :: rest else (a, v) :: setField rest k val

/-- Write index 0 of the image value found by the probe; only the array
and object forms are reachable from a matched probe. -/
def setIndex0 : Json → Json → Json
  | .arr (_ :: xs), e => .arr (e :: xs)
  | .arr [], e => .arr [e]
  | .obj fs, e => .obj (setField fs "0" e)
  | v, _ => v

/-- The in-place mutation the script.js send handler performs on the
matched node (lines 766-788): conditional name write, conditional alt
write, and the transform-URL splice behind
bynderImage.files.transformBaseUrl.url.  Reads along that path throw when
a link is missing, null, or not an object, and the model treats a
non-string url value as the throw its lastIndexOf call raises. -/
def mutateNodeScript (fs : List (String × Json)) (mod : ScriptMod) :
    Except Unit (List (String × Json)) :=
  match lookupField fs "image" with
  | some v =>
    match getIndex0 v with
    | some (.obj bfs) =>
      let changed := !(strictEqStr (lookupField bfs "name") mod.newFileName)
      let bfs1 := if changed then setField bfs "name" (.str mod.newFileName) else bfs
      let fs1 := if !(strictEqStr (lookupField fs "alt") mod.newAlt) then
          setField fs "alt" (.str mod.newAlt) else fs
      if changed then
        match lookupField bfs1 "files" with
        | some (.obj ffs) =>
          match lookupField ffs "transformBaseUrl" with
          | some (.obj tfs) =>
            match lookupField tfs "url" with
            | some (.str oldUrl) =>
              let tfs2 := setField tfs "url" (.str (spliceTransformUrl oldUrl mod.newFileName))
              let ffs2 := setField ffs "transformBaseUrl" (.obj tfs2)
              let bfs2 := setField bfs1 "files" (.obj ffs2)
              .ok (setField fs1 "image" (setIndex0 v (.obj bfs2)))
            | _ => .error ()
          | _ => .error ()
        | _ => .error ()
      else .ok (setField fs1 "image" (setIndex0 v (.obj bfs1)))
    | _ => .error ()
  | none => .error ()

mutual
/-- The find-then-mutate step of the script.js send handler: locate the
first node matching findProbe (the reference findImageInStoryContentById
returns) and mutate it in place; the Boolean reports whether a node was
found.  An unmatched tree is returned unchanged. -/
def rewriteFirstScript : Json → String → ScriptMod → Except Unit (Json × Bool)
  | .obj fs, bid, mod =>
    match findProbe bid fs with
    | .error e => .error e
    | .ok true =>
      match mutateNodeScript fs mod with
      | .error e => .error e
      | .ok fs2 => .ok (.obj fs2, true)
    | .ok false =>
      match rewriteFields fs bid mod with
      | .error e => .error e
      | .ok (fs2, found) => .ok (.obj fs2, found)
  | .arr xs, bid, mod =>
    match rewriteList xs bid mod with
    | .error e => .error e
    | .ok (xs2, found) => .ok (.arr xs2, found)
  | j, _, _ => .ok (j, false)

/-- rewriteFirstScript over array elements. -/
def rewriteList : List Json → String → ScriptMod → Except Unit (List Json × Bool)
  | [], _, _ => .ok ([], false)
  | x :: xs, bid, mod =>
    match rewriteFirstScript x bid mod with
    | .error e => .error e
    | .ok (x2, true) => .ok (x2 :: xs, true)
    | .ok (x2, false) =>
      match rewriteList xs bid mod with
      | .error e => .error e
      | .ok (xs2, found) => .ok (x2 :: xs2, found)

/-- rewriteFirstScript over object field values. -/
def rewriteFields : List (String × Json) → String → ScriptMod →
    Except Unit (List (String × Json) × Bool)
  | [], _, _ => .ok ([], false)
  | (k, v) :: fs, bid, mod =>
    match rewriteFirstScript v bid mod with
    | .error e => .error e
    | .ok (v2, true) => .ok ((k, v2) :: fs, true)
    | .ok (v2, false) =>
      match rewriteFields fs bid mod with
      | .error e => .error e
      | .ok (fs2, found) => .ok ((k, v2) :: fs2, found)
end

/-- A story document as the write-back handles it: the numeric id that
keys all maps and the content tree the patcher mutates; the PUT carries
the whole document. -/
structure Story where
  id : Nat
  content : Json

/-- The network behavior the send handler observes: the fresh GET of one
story by id (none models a failed fetch, which fetchStoryblokApi turns
into null) and whether the PUT for a story succeeds (false models the
null that putStoryblokApi returns on failure). -/
structure ScriptEnv where
  fetchStory : Nat → Option Story
  putOk : Nat → Bool

/-- The modification loop of the script.js send handler (lines 761-793):
each pending (bynder id, mod) pair is located in the working content and
applied; a missing node leaves the tree untouched, records the skipped id
as the console.warn diagnostic, and the loop continues.  The Boolean is
actualChangesApplied. -/
def applyModsAux : List (String × ScriptMod) → Json × Bool × List String →
    Except Unit (Json × Bool × List String)
  | [], st => .ok st
  | (bid, mod) :: rest, (c, ap, ws) =>
    match rewriteFirstScript c bid mod with
    | .error e => .error e
    | .ok (c2, true) => applyModsAux rest (c2, true, ws)
    | .ok (c2, false) => applyModsAux rest (c2, ap, ws ++ [bid])

/-- What processing one story produced, mirroring the branches of the
script.js send loop: the safeguard skip, a failed fresh fetch, no node
re-located at all (PUT skipped), or a PUT attempt with its outcome; the
diagnostics list carries the ids of skipped images. -/
inductive StoryOutcome where
  | skippedNoMods : StoryOutcome
  | fetchFailed : StoryOutcome
  | noChanges : List String → StoryOutcome
  | putDone : Story → Bool → List String → StoryOutcome

/-- One iteration of the script.js send loop (lines 740-843) for a story
id and its pending mods.  A TypeError thrown while patching propagates
(the loop body has no try/catch), modelled as the error case. -/
def processStoryScript (env : ScriptEnv) (sid : Nat) (mods : List (String × ScriptMod)) :
    Except Unit StoryOutcome :=
  if mods.isEmpty then .ok .skippedNoMods
  else
    match env.fetchStory sid with
    | none => .ok .fetchFailed
    | some story =>
      match applyModsAux mods (story.content, false, []) with
      | .error e => .error e
      | .ok (c2, applied, ws) =>
        if applied = false then .ok (.noChanges ws)
        else if env.putOk sid then .ok (.putDone ⟨story.id, c2⟩ true ws)
        else .ok (.putDone ⟨story.id, c2⟩ false ws)

/-- Observable result of one send-to-server run: every PUT request issued
(id and full document), the success and failure counters of the final
alert, the skip diagnostics, and whether an uncaught exception aborted
the handler. -/
structure ScriptRun where
  puts : List (Nat × Story)
  successCount : Nat
  failCount : Nat
  warns : List String
  aborted : Bool

/-- Folding step of the send loop over one changed story; after an
uncaught exception nothing further runs. -/
def stepScript (env : ScriptEnv) (acc : ScriptRun) (entry : Nat × List (String × ScriptMod)) :
    ScriptRun :=
  if acc.aborted then acc
  else
    match processStoryScript env entry.1 entry.2 with
    | .error _ => ⟨acc.puts, acc.successCount, acc.failCount, acc.warns, true⟩
    | .ok .skippedNoMods => acc
    | .ok .fetchFailed => ⟨acc.puts, acc.successCount, acc.failCount + 1, acc.warns, false⟩
    | .ok (.noChanges ws) =>
      ⟨acc.puts, acc.successCount, acc.failCount, acc.warns ++ ws, false⟩
    | .ok (.putDone doc true ws) =>
      ⟨acc.puts ++ [(entry.1, doc)], acc.successCount + 1, acc.failCount, acc.warns ++ ws, false⟩
    | .ok (.putDone doc false ws) =>
      ⟨acc.puts ++ [(entry.1, doc)], acc.successCount, acc.failCount + 1, acc.warns ++ ws, false⟩

/-- The empty run every send starts from. -/
def initRun : ScriptRun := ⟨[], 0, 0, [], false⟩

/-- The script.js send-to-server click handler (lines 725-851) over the
changed stories (ids distinct, as changedStories is a Set) with their
pending modification lists. -/
def sendToServerScript (env : ScriptEnv)
    (entries : List (Nat × List (String × ScriptMod))) : ScriptRun :=
  entries.foldl (stepScript env) initRun

/-- Sequential composition of two run results; the second run's abort
flag carries over. -/
def combineRuns (a b : ScriptRun) : ScriptRun :=
  ⟨a.puts ++ b.puts, a.successCount + b.successCount, a.failCount + b.failCount,
   a.warns ++ b.warns, b.aborted⟩

/-- One pending edit of part_000's modifiedImages map, flattened: the
story it belongs to, the wrapper's _uid, and the proposed and original
field values. -/
structure P0ModEntry where
  storyId : Nat
  uid : String
  fileName : String
  altText : String
  originalFileName : String
  originalAlt : String

/-- The per-wrapper body of updateImageRecursive's forEach (part_000
lines 679-701).  The _uid read throws on a null wrapper; on a _uid match
the file name is normalized in place, the name and URL are written behind
image[0] (reads along files.transformBaseUrl.url throw when the links are
missing or not objects, including when image[0] is not an object), and
the no-separator case leaves the URL unchanged. -/
def updateWrapperStep (mod : P0ModEntry) (w : Json) : Except Unit Json :=
  match w with
  | .null => .error ()
  | .obj wfs =>
    if strictEqStr (lookupField wfs "_uid") mod.uid then
      let fn := normalizeFileName mod.fileName
      if fn != mod.originalFileName then
        match lookupField wfs "image" with
        | none => .error ()
        | some v =>
          match getIndex0 v with
          | some (.obj bfs) =>
            let bfs1 := setField bfs "name" (.str fn)
            match lookupField bfs1 "files" with
            | some (.obj ffs) =>
              match lookupField ffs "transformBaseUrl" with
              | some (.obj tfs) =>
                match lookupField tfs "url" with
                | some (.str oldUrl) =>
                  let tfs2 := setField tfs "url" (.str (spliceTransformUrlPart000 oldUrl fn))
                  let ffs2 := setField ffs "transformBaseUrl" (.obj tfs2)
                  let bfs2 := setField bfs1 "files" (.obj ffs2)
                  let wfs1 := setField wfs "image" (setIndex0 v (.obj bfs2))
                  let wfs2 := if mod.altText != mod.originalAlt then
                      setField wfs1 "alt" (.str mod.altText) else wfs1
                  .ok (.obj wfs2)
                | _ => .error ()
              | _ => .error ()
            | _ => .error ()
          | _ => .error ()
      else
        let wfs2 := if mod.altText != mod.originalAlt then
            setField wfs "alt" (.str mod.altText) else wfs
        .ok (.obj wfs2)
    else .ok (.obj wfs)
  | w => .ok w

/-- updateWrapperStep over the elements of a tagged array. -/
def updateWrapperList (mod : P0ModEntry) : List Json → Except Unit (List Json)
  | [] => .ok []
  | w :: ws =>
    match updateWrapperStep mod w with
    | .error e => .error e
    | .ok w2 =>
      match updateWrapperList mod ws with
      | .error e => .error e
      | .ok ws2 => .ok (w2 :: ws2)

mutual
/-- updateImageRecursive (src/unnamed/part_000 lines 668-709): walk the
tree; an object field holding a non-empty array whose first element is
truthy and tagged 'bynder_image' has its wrappers scanned by _uid (no
recursion into it); every other value is recursed. -/
def updateImageRecursive (mod : P0ModEntry) : Json → Except Unit Json
  | .arr xs =>
    match updateJsonList mod xs with
    | .error e => .error e
    | .ok xs2 => .ok (.arr xs2)
  | .obj fs =>
    match updateJsonFields mod fs with
    | .error e => .error e
    | .ok fs2 => .ok (.obj fs2)
  | j => .ok j

/-- updateImageRecursive over array elements. -/
def updateJsonList (mod : P0ModEntry) : List Json → Except Unit (List Json)
  | [] => .ok []
  | x :: xs =>
    match updateImageRecursive mod x with
    | .error e => .error e
    | .ok x2 =>
      match updateJsonList mod xs with
      | .error e => .error e
      | .ok xs2 => .ok (x2 :: xs2)

/-- updateImageRecursive over an object's fields.  The guard on line 678
includes a truthiness test of the first element, so a falsy first element
falls through to recursion instead of throwing. -/
def updateJsonFields (mod : P0ModEntry) : List (String × Json) → Except Unit (List (String × Json))
  | [] => .ok []
  | (k, v) :: fs =>
    match
      (match v with
       | .arr (e0 :: rest) =>
         if truthy e0 && strictEqStr (getField e0 "component") "bynder_image" then
           (match updateWrapperList mod (e0 :: rest) with
            | .error e => .error e
            | .ok ws2 => .ok (Json.arr ws2)
            : Except Unit Json)
         else updateImageRecursive mod (.arr (e0 :: rest))
       | .arr [] => updateImageRecursive mod (.arr [])
       | .obj ofs => updateImageRecursive mod (.obj ofs)
       | w => .ok w)
    with
    | .error e => .error e
    | .ok v2 =>
      match updateJsonFields mod fs with
      | .error e => .error e
      | .ok fs2 => .ok ((k, v2) :: fs2)
end

/-- Whether some wrapper in a tagged array carries the given _uid. -/
def uidInWrappers (uid : String) (ws : List Json) : Bool :=
  ws.any (fun w =>
    match w with
    | .obj wfs => strictEqStr (lookupField wfs "_uid") uid
    | _ => false)

mutual
/-- Whether updateImageRecursive would find a wrapper with the given
_uid anywhere it scans: the specification-side re-location test for a
pending part_000 edit. -/
def uidTargeted (uid : String) : Json → Bool
  | .arr xs => uidTargetedList uid xs
  | .obj fs => uidTargetedFields uid fs
  | _ => false

/-- uidTargeted over array elements. -/
def uidTargetedList (uid : String) : List Json → Bool
  | [] => false
  | x :: xs => uidTargeted uid x || uidTargetedList uid xs

/-- uidTargeted over an object's fields, mirroring updateJsonFields. -/
def uidTargetedFields (uid : String) : List (String × Json) → Bool
  | [] => false
  | (_, v) :: fs =>
    (match v with
     | .arr (e0 :: rest) =>
       if truthy e0 && strictEqStr (getField e0 "component") "bynder_image" then
         uidInWrappers uid (e0 :: rest)
       else uidTargeted uid (.arr (e0 :: rest))
     | .arr [] => false
     | .obj ofs => uidTargeted uid (.obj ofs)
     | _ => false) || uidTargetedFields uid fs
end

/-- Lookup of a story by id in the storiesToUpdate association list. -/
def lookupStory : List (Nat × Story) → Nat → Option Story
  | [], _ => none
  | (a, st) :: rest, sid => if a == sid then some st else lookupStory rest sid

/-- Replace the story stored under an id. -/
def replaceStory : List (Nat × Story) → Nat → Story → List (Nat × Story)
  | [], _, _ => []
  | (a, st) :: rest, sid, st2 =>
    if a == sid then (a, st2) :: rest else (a, st) :: replaceStory rest sid st2

/-- Grouping phase of sendModificationsToServer (part_000 lines 652-659):
for each pending edit whose story is not yet gathered, fetch the fresh
server copy; a failed fetch throws and aborts the whole send before any
PUT.  Insertion order is the first-occurrence order of story ids. -/
def gatherStories (env : ScriptEnv) : List P0ModEntry → List (Nat × Story) →
    Except Unit (List (Nat × Story))
  | [], acc => .ok acc
  | m :: ms, acc =>
    if (lookupStory acc m.storyId).isSome then gatherStories env ms acc
    else
      match env.fetchStory m.storyId with
      | none => .error ()
      | some st => gatherStories env ms (acc ++ [(m.storyId, st)])

/-- Update phase (part_000 lines 661-711): every pending edit runs
updateImageRecursive against its own story's freshly fetched content; a
missing story entry or a patching TypeError throws and aborts the send. -/
def applyModsP0 : List P0ModEntry → List (Nat × Story) → Except Unit (List (Nat × Story))
  | [], stories => .ok stories
  | m :: ms, stories =>
    match lookupStory stories m.storyId with
    | none => .error ()
    | some st =>
      match updateImageRecursive m st.content with
      | .error e => .error e
      | .ok c2 => applyModsP0 ms (replaceStory stories m.storyId ⟨st.id, c2⟩)

/-- PUT phase (part_000 lines 714-721): one PUT per gathered story, in
order; a failed PUT throws, so the stories after it are never sent. -/
def putStoriesP0 (env : ScriptEnv) : List (Nat × Story) → List (Nat × Story) × Bool
  | [] => ([], true)
  | (sid, st) :: rest =>
    if env.putOk sid then
      let r := putStoriesP0 env rest
      ((sid, st) :: r.1, r.2)
    else ([(sid, st)], false)

/-- Observable result of one part_000 send: the PUT requests issued in
order, whether the whole send succeeded (any throw is caught by the
surrounding try/catch, which shows an error modal and stops), and the
skip diagnostics emitted for pending edits whose wrapper was not
re-located - sendModificationsToServer has no such diagnostic, so this
list is constructed empty. -/
structure P0Run where
  puts : List (Nat × Story)
  allOk : Bool
  diags : List String

/-- sendModificationsToServer (src/unnamed/part_000 lines 639-735):
gather fresh copies, apply every pending edit, then PUT story by story;
the first failure anywhere abandons the remainder of the batch. -/
def sendModificationsToServer (env : ScriptEnv) (mods : List P0ModEntry) : P0Run :=
  match gatherStories env mods [] with
  | .error _ => ⟨[], false, []⟩
  | .ok stories =>
    match applyModsP0 mods stories with
    | .error _ => ⟨[], false, []⟩
    | .ok stories2 =>
      let r := putStoriesP0 env stories2
      ⟨r.1, r.2, []⟩

/-- Content reachable from a fetched content tree by applying zero or
more updateImageRecursive passes for pending edits. -/
inductive UpdateReach : Json → Json → Prop where
  | refl (c : Json) : UpdateReach c c
  | step (m : P0ModEntry) (c c2 c3 : Json) :
      updateImageRecursive m c = .ok c2 → UpdateReach c2 c3 → UpdateReach c c3

/-! Fixtures: concrete stories, nodes and environments the claim
counterexamples and witnesses evaluate the models on. -/
/-- A story content that is itself a qualifying image node: component
tag, one descriptor whose databaseId is the string "b1". -/
def exampleNode : Json := .obj [("component", .str "bynder_image"),
  ("image", .arr [.obj [("databaseId", .str "b1"), ("name", .str "old.jpg"),
    ("files", .obj [("transformBaseUrl", .obj [("url", .str "x/old.jpg")])])]]),
  ("alt", .str "old")]

/-- exampleNode after the pending edit (new name, new alt, re-derived
transform URL). -/
def exampleNode2 : Json := .obj [("component", .str "bynder_image"),
  ("image", .arr [.obj [("databaseId", .str "b1"), ("name", .str "new.jpg"),
    ("files", .obj [("transformBaseUrl", .obj [("url", .str "x/new.jpg")])])]]),
  ("alt", .str "new")]

/-- One pending modification list against exampleNode. -/
def exampleMods : List (String × ScriptMod) := [("b1", ⟨"new.jpg", "new"⟩)]

/-- An environment serving exampleNode as story 7 and accepting every
PUT. -/
def exampleEnv : ScriptEnv := ⟨fun _ => some ⟨7, exampleNode⟩, fun _ => true⟩

/-- The story document the send loop PUTs for exampleEnv. -/
def exampleDoc : Story := ⟨7, exampleNode2⟩

/-- A part_000 wrapper with _uid "u1" holding one descriptor. -/
def c6wrapper : Json := .obj [("component", .str "bynder_image"), ("_uid", .str "u1"),
  ("alt", .str "o"),
  ("image", .arr [.obj [("databaseId", .str "d"), ("name", .str "a"),
    ("files", .obj [("transformBaseUrl", .obj [("url", .str "x/a")])])]])]

/-- A story content holding c6wrapper in a tagged array field. -/
def c6content : Json := .obj [("body", .arr [c6wrapper])]

/-- c6wrapper after the c6m1 edit was applied. -/
def c6wrapper2 : Json := .obj [("component", .str "bynder_image"), ("_uid", .str "u1"),
  ("alt", .str "o"),
  ("image", .arr [.obj [("databaseId", .str "d"), ("name", .str "b"),
    ("files", .obj [("transformBaseUrl", .obj [("url", .str "x/b")])])]])]

/-- c6content after the c6m1 edit was applied. -/
def c6content2 : Json := .obj [("body", .arr [c6wrapper2])]

/-- A pending part_000 edit whose wrapper "u1" exists in c6content. -/
def c6m1 : P0ModEntry := ⟨1, "u1", "b", "o", "a", "o"⟩

/-- A pending part_000 edit whose wrapper "zz" exists nowhere in
c6content: its node cannot be re-located at write time. -/
def c6m2 : P0ModEntry := ⟨1, "zz", "c", "o2", "c0", "o2"⟩

/-- An environment serving c6content as story 1 and accepting every
PUT. -/
def c6env : ScriptEnv := ⟨fun _ => some ⟨1, c6content⟩, fun _ => true⟩

/-- An environment where every fetch fails. -/
def c7env : ScriptEnv := ⟨fun _ => none, fun _ => true⟩

/-- One changed story with one pending edit. -/
def c7xs : List (Nat × List (String × ScriptMod)) := [(1, [("b", ⟨"n", "a"⟩)])]

/-- A second changed story with one pending edit. -/
def c7ys : List (Nat × List (String × ScriptMod)) := [(2, [("c", ⟨"m", "d"⟩)])]

/-- An environment serving an empty story for every id whose PUT fails
exactly on story 1. -/
def c7p0env : ScriptEnv := ⟨fun sid => some ⟨sid, .obj []⟩, fun sid => sid != 1⟩

/-- A pending part_000 edit on story 1. -/
def c7m1 : P0ModEntry := ⟨1, "u", "b", "o", "a", "o"⟩

/-- A pending part_000 edit on story 2. -/
def c7m2 : P0ModEntry := ⟨2, "u2", "b", "o", "a", "o"⟩

/-- When extractProbe returns without throwing, it decides exactly
qualifiesImageNode. -/
theorem extractProbe_ok {fs : List (String × Json)} {b : Bool}
    (h : extractProbe fs = .ok b) : qualifiesImageNode fs = b := by
  unfold extractProbe at h
  unfold qualifiesImageNode
  split at h
  · next hc =>
    simp only [Except.ok.injEq] at h
    simp [hc, ← h]
  · next hc =>
    replace hc : strictEqStr (lookupField fs "component") "bynder_image" = true := by
      simpa using hc
    rw [hc, Bool.true_and]
    split at h
    · next himg =>
      simp only [Except.ok.injEq] at h
      simp [himg, ← h]
    · next v himg =>
      split at h
      · next ht =>
        simp only [Except.ok.injEq] at h
        simp [ht, ← h]
      · next ht =>
        replace ht : truthy v = true := by simpa using ht
        rw [ht, Bool.true_and]
        split at h
        · next hl =>
          simp only [Except.ok.injEq] at h
          simp [hl, ← h]
        · next hl =>
          replace hl : jsGtZero (getField v "length") = true := by simpa using hl
          rw [hl, Bool.true_and]
          split at h
          · exact absurd h (by simp)
          · exact absurd h (by simp)
          · next e heq =>
            rw [heq]
            simp only [Except.ok.injEq] at h
            simpa using h

mutual
/-- Whenever extractImages returns without throwing, its result is exactly
the depth-first preorder sequence of qualifying nodes. -/
theorem extractImages_ok : ∀ (j : Json) (l : List Json),
    extractImages j = .ok l → l = collectImageNodes j
  | .null, l, h => by
    simp only [extractImages, Except.ok.injEq] at h
    simp [collectImageNodes, ← h]
  | .bool c, l, h => by
    simp only [extractImages, Except.ok.injEq] at h
    simp [collectImageNodes, ← h]
  | .num n, l, h => by
    simp only [extractImages, Except.ok.injEq] at h
    simp [collectImageNodes, ← h]
  | .str s, l, h => by
    simp only [extractImages, Except.ok.injEq] at h
    simp [collectImageNodes, ← h]
  | .arr xs, l, h => by
    simp only [extractImages] at h
    simp only [collectImageNodes]
    exact extractImagesList_ok xs l h
  | .obj fs, l, h => by
    simp only [extractImages] at h
    split at h
    · exact absurd h (by simp)
    · next b hb =>
      split at h
      · exact absurd h (by simp)
      · next rest hrest =>
        simp only [Except.ok.injEq] at h
        subst h
        simp only [collectImageNodes]
        rw [extractProbe_ok hb, extractImagesFields_ok fs rest hrest]

/-- extractImages_ok over array elements. -/
theorem extractImagesList_ok : ∀ (xs : List Json) (l : List Json),
    extractImagesList xs = .ok l → l = collectNodesList xs
  | [], l, h => by
    simp only [extractImagesList, Except.ok.injEq] at h
    simp [collectNodesList, ← h]
  | x :: xs, l, h => by
    simp only [extractImagesList] at h
    split at h
    · exact absurd h (by simp)
    · next a ha =>
      split at h
      · exact absurd h (by simp)
      · next c hc =>
        simp only [Except.ok.injEq] at h
        subst h
        simp only [collectNodesList]
        rw [extractImages_ok x a ha, extractImagesList_ok xs c hc]

/-- extractImages_ok over object field values. -/
theorem extractImagesFields_ok : ∀ (fs : List (String × Json)) (l : List Json),
    extractImagesFields fs = .ok l → l = collectNodesFields fs
  | [], l, h => by
    simp only [extractImagesFields, Except.ok.injEq] at h
    simp [collectNodesFields, ← h]
  | (k, v) :: fs, l, h => by
    simp only [extractImagesFields] at h
    split at h
    · exact absurd h (by simp)
    · next a ha =>
      split at h
      · exact absurd h (by simp)
      · next c hc =>
        simp only [Except.ok.injEq] at h
        subst h
        simp only [collectNodesFields]
        rw [extractImages_ok v a ha, extractImagesFields_ok fs c hc]
end

/-- If extractProbe throws, the node fails extractProbeSafe. -/
theorem extractProbe_err {fs : List (String × Json)}
    (h : extractProbe fs = .error ()) : extractProbeSafe fs = false := by
  unfold extractProbe at h
  unfold extractProbeSafe
  split at h
  · exact absurd h (by simp)
  · next hc =>
    split at h
    · exact absurd h (by simp)
    · next v himg =>
      split at h
      · exact absurd h (by simp)
      · next ht =>
        split at h
        · exact absurd h (by simp)
        · next hl =>
          split at h
          · simp_all
          · simp_all
          · exact absurd h (by simp)

mutual
/-- If extractImages throws, some node fails extractProbeSafe. -/
theorem extractImages_err : ∀ (j : Json), extractImages j = .error () → extractSafe j = false
  | .null, h => by simp [extractImages] at h
  | .bool c, h => by simp [extractImages] at h
  | .num n, h => by simp [extractImages] at h
  | .str s, h => by simp [extractImages] at h
  | .arr xs, h => by
    simp only [extractImages] at h
    simp only [extractSafe]
    exact extractImagesList_err xs h
  | .obj fs, h => by
    simp only [extractImages] at h
    simp only [extractSafe]
    split at h
    · next e hb =>
      cases e
      rw [extractProbe_err hb]
      simp
    · next b hb =>
      split at h
      · next e hr =>
        cases e
        rw [extractImagesFields_err fs hr]
        simp
      · exact absurd h (by simp)

/-- extractImages_err over array elements. -/
theorem extractImagesList_err : ∀ (xs : List Json),
    extractImagesList xs = .error () → extractSafeList xs = false
  | [], h => by simp [extractImagesList] at h
  | x :: xs, h => by
    simp only [extractImagesList] at h
    simp only [extractSafeList]
    split at h
    · next e hx =>
      cases e
      rw [extractImages_err x hx]
      simp
    · next a ha =>
      split at h
      · next e hr =>
        cases e
        rw [extractImagesList_err xs hr]
        simp
      · exact absurd h (by simp)

/-- extractImages_err over object field values. -/
theorem extractImagesFields_err : ∀ (fs : List (String × Json)),
    extractImagesFields fs = .error () → extractSafeFields fs = false
  | [], h => by simp [extractImagesFields] at h
  | (k, v) :: fs, h => by
    simp only [extractImagesFields] at h
    simp only [extractSafeFields]
    split at h
    · next e hx =>
      cases e
      rw [extractImages_err v hx]
      simp
    · next a ha =>
      split at h
      · next e hr =>
        cases e
        rw [extractImagesFields_err fs hr]
        simp
      · exact absurd h (by simp)
end

/-- On a tree passing extractSafe, extractImages cannot throw. -/
theorem extractSafe_no_throw (j : Json) (hs : extractSafe j = true) :
    ∃ l, extractImages j = .ok l := by
  cases hE : extractImages j with
  | ok l => exact ⟨l, rfl⟩
  | error e =>
    cases e
    rw [extractImages_err j hE] at hs
    exact absurd hs (by simp)

/-- If the wrapper test throws, the wrapper fails wrapperSafe. -/
theorem wrapperTest_err : ∀ (w : Json) (k : String),
    wrapperTest w k = .error () → wrapperSafe w = false
  | .null, k, h => by rfl
  | .bool b, k, h => by simp [wrapperTest] at h
  | .num n, k, h => by simp [wrapperTest] at h
  | .str s, k, h => by simp [wrapperTest] at h
  | .arr xs, k, h => by simp [wrapperTest] at h
  | .obj wfs, k, h => by
    simp only [wrapperTest] at h
    simp only [wrapperSafe]
    split at h
    · exact absurd h (by simp)
    · next v hv =>
      split at h
      · exact absurd h (by simp)
      · next ht =>
        split at h
        · next e rest =>
          split at h
          · next hnull =>
            simp [truthy, hnull]
          · next hnull =>
            split at h
            · exact absurd h (by simp)
            · exact absurd h (by simp)
        · exact absurd h (by simp)

/-- If the wrapper forEach throws, some wrapper fails wrapperSafe. -/
theorem wrapperLoop_err : ∀ (ws : List Json) (k : String),
    wrapperLoop ws k = .error () → ws.all wrapperSafe = false
  | [], k, h => by simp [wrapperLoop] at h
  | w :: ws, k, h => by
    simp only [wrapperLoop] at h
    simp only [List.all_cons]
    split at h
    · next e hw =>
      cases e
      rw [wrapperTest_err w k hw]
      simp
    · next r hr =>
      split at h
      · next e hrec =>
        cases e
        rw [wrapperLoop_err ws k hrec]
        simp
      · exact absurd h (by simp)

/-- Strong induction principle for Json over the nested lists of an
array's elements and an object's field values. -/
theorem Json.inductionOn (motive : Json → Prop)
    (hnull : motive .null) (hbool : ∀ b, motive (.bool b))
    (hnum : ∀ n, motive (.num n)) (hstr : ∀ s, motive (.str s))
    (harr : ∀ xs, (∀ x ∈ xs, motive x) → motive (.arr xs))
    (hobj : ∀ fs, (∀ kv ∈ fs, motive kv.2) → motive (.obj fs)) :
    ∀ j, motive j := by
  have H : ∀ n (j : Json), sizeOf j ≤ n → motive j := by
    intro n
    induction n with
    | zero =>
      intro j hj
      exfalso
      cases j <;> simp at hj
    | succ n ih =>
      intro j hj
      cases j with
      | null => exact hnull
      | bool b => exact hbool b
      | num m => exact hnum m
      | str s => exact hstr s
      | arr xs =>
        refine harr xs (fun x hx => ih x ?_)
        have hlt := List.sizeOf_lt_of_mem hx
        simp at hj
        omega
      | obj fs =>
        refine hobj fs (fun kv hkv => ih kv.2 ?_)
        have h1 := List.sizeOf_lt_of_mem hkv
        have h2 : sizeOf kv.2 < sizeOf kv := by
          cases kv
          simp
        simp at hj
        omega
  exact fun j => H (sizeOf j) j (le_refl _)

/-- Splitting principle for the error-propagating concat used by both
locators: if the combined result throws, the step threw or the step
succeeded and the remainder threw. -/
theorem chain_err {A : Type} {step rest : Except Unit (List A)}
    (hout : exceptConcat step rest = Except.error ()) :
    step = .error () ∨ (∃ a, step = .ok a ∧ rest = .error ()) := by
  cases step with
  | error e => cases e; exact Or.inl rfl
  | ok a =>
    cases rest with
    | error e => cases e; exact Or.inr ⟨a, rfl, rfl⟩
    | ok b => exact absurd hout (by simp [exceptConcat])

/-- Auxiliary for findImagesInContent_err over array elements. -/
theorem findImagesList_err_aux (xs : List Json) (pf : String)
    (ih : ∀ x ∈ xs, ∀ pf2, findImagesInContent x pf2 = .error () → findSafe x = false)
    (h : findImagesList xs pf = .error ()) : findSafeList xs = false := by
  induction xs with
  | nil => simp [findImagesList] at h
  | cons x xs ihl =>
    simp only [findImagesList] at h
    simp only [findSafeList]
    rcases chain_err h with hx | ⟨a, hx, hr⟩
    · rw [ih x (by simp) pf hx]
      simp
    · rw [ihl (fun y hy => ih y (by simp [hy])) hr]
      simp

/-- Auxiliary for findImagesInContent_err over an object's fields. -/
theorem findImagesFields_err_aux (fs : List (String × Json))
    (ih : ∀ kv ∈ fs, ∀ pf2, findImagesInContent kv.2 pf2 = .error () → findSafe kv.2 = false)
    (h : findImagesFields fs = .error ()) : findSafeFields fs = false := by
  induction fs with
  | nil => simp [findImagesFields] at h
  | cons kv fs ihl =>
    obtain ⟨k, v⟩ := kv
    cases v with
    | null =>
      simp only [findImagesFields] at h
      simp only [findSafeFields]
      rcases chain_err h with hstep | ⟨a, _, hrest⟩
      · exact Except.noConfusion hstep
      · rw [ihl (fun y hy pf2 => ih y (by simp [hy]) pf2) hrest]
        simp
    | bool c =>
      simp only [findImagesFields] at h
      simp only [findSafeFields]
      rcases chain_err h with hstep | ⟨a, _, hrest⟩
      · exact Except.noConfusion hstep
      · rw [ihl (fun y hy pf2 => ih y (by simp [hy]) pf2) hrest]
        simp
    | num n =>
      simp only [findImagesFields] at h
      simp only [findSafeFields]
      rcases chain_err h with hstep | ⟨a, _, hrest⟩
      · exact Except.noConfusion hstep
      · rw [ihl (fun y hy pf2 => ih y (by simp [hy]) pf2) hrest]
        simp
    | str t =>
      simp only [findImagesFields] at h
      simp only [findSafeFields]
      rcases chain_err h with hstep | ⟨a, _, hrest⟩
      · exact Except.noConfusion hstep
      · rw [ihl (fun y hy pf2 => ih y (by simp [hy]) pf2) hrest]
        simp
    | obj ofs =>
      simp only [findImagesFields] at h
      simp only [findSafeFields]
      rcases chain_err h with hstep | ⟨a, _, hrest⟩
      · have hrec := ih (k, .obj ofs) (by simp) k hstep
        simp [hrec]
      · rw [ihl (fun y hy pf2 => ih y (by simp [hy]) pf2) hrest]
        simp
    | arr xs =>
      cases xs with
      | nil =>
        simp only [findImagesFields] at h
        simp only [findSafeFields]
        rcases chain_err h with hstep | ⟨a, _, hrest⟩
        · rw [show findImagesInContent (Json.arr []) k = .ok [] from rfl] at hstep
          exact Except.noConfusion hstep
        · rw [ihl (fun y hy pf2 => ih y (by simp [hy]) pf2) hrest]
          simp
      | cons e0 rest =>
        simp only [findImagesFields] at h
        simp only [findSafeFields]
        rcases chain_err h with hstep | ⟨a, _, hrest⟩
        · by_cases hnull : isNullJson e0 = true
          · simp [hnull]
          · replace hnull : isNullJson e0 = false := by simpa using hnull
            rw [if_neg (by simp [hnull])] at hstep
            by_cases hcomp : strictEqStr (getField e0 "component") "bynder_image" = true
            · rw [if_pos (by simp [hcomp])] at hstep
              have hall := wrapperLoop_err (e0 :: rest) k hstep
              simp [hnull, hcomp, hall]
            · rw [if_neg (by simp [hcomp])] at hstep
              replace hcomp : strictEqStr (getField e0 "component") "bynder_image" = false := by
                simpa using hcomp
              have hrec := ih (k, .arr (e0 :: rest)) (by simp) k hstep
              simp [hnull, hcomp, hrec]
        · rw [ihl (fun y hy pf2 => ih y (by simp [hy]) pf2) hrest]
          simp

/-- If findImagesInContent throws, the tree fails findSafe. -/
theorem findImagesInContent_err : ∀ (j : Json) (pf : String),
    findImagesInContent j pf = .error () → findSafe j = false := by
  refine Json.inductionOn
    (motive := fun j => ∀ pf, findImagesInContent j pf = .error () → findSafe j = false)
    ?_ ?_ ?_ ?_ ?_ ?_
  · intro pf h
    simp [findImagesInContent] at h
  · intro b pf h
    simp [findImagesInContent] at h
  · intro n pf h
    simp [findImagesInContent] at h
  · intro s pf h
    simp [findImagesInContent] at h
  · intro xs ih pf h
    simp only [findImagesInContent] at h
    simp only [findSafe]
    exact findImagesList_err_aux xs pf ih h
  · intro fs ih pf h
    simp only [findImagesInContent] at h
    simp only [findSafe]
    exact findImagesFields_err_aux fs ih h

/-- On a tree passing findSafe, findImagesInContent cannot throw. -/
theorem findSafe_no_throw (j : Json) (pf : String) (hs : findSafe j = true) :
    ∃ r, findImagesInContent j pf = .ok r := by
  cases hE : findImagesInContent j pf with
  | ok r => exact ⟨r, rfl⟩
  | error e =>
    cases e
    rw [findImagesInContent_err j pf hE] at hs
    exact absurd hs (by simp)

/-- The character found at a last-slash index is '/': taking one more
character than the index appends exactly '/'. -/
theorem lastIndexOfSlash_take {cs : List Char} {i : Nat}
    (h : lastIndexOfSlash cs = some i) : cs.take (i + 1) = cs.take i ++ ['/'] := by
  induction cs generalizing i with
  | nil => simp [lastIndexOfSlash] at h
  | cons c rest ih =>
    simp only [lastIndexOfSlash] at h
    split at h
    · next j hj =>
      simp only [Option.some.injEq] at h
      subst h
      simp [List.take_succ_cons, ih hj]
    · next hj =>
      split at h
      · next hc =>
        simp only [Option.some.injEq] at h
        subst h
        simp [hc]
      · exact absurd h (by simp)

/-- A list containing '/' has a last-slash index. -/
theorem lastIndexOfSlash_isSome {cs : List Char}
    (h : '/' ∈ cs) : ∃ i, lastIndexOfSlash cs = some i := by
  induction cs with
  | nil => simp at h
  | cons c rest ih =>
    simp only [lastIndexOfSlash]
    cases hr : lastIndexOfSlash rest with
    | some j => exact ⟨j + 1, rfl⟩
    | none =>
      rcases List.mem_cons.mp h with hc | hm
      · exact ⟨0, by simp [hc.symm]⟩
      · obtain ⟨i, hi⟩ := ih hm
        rw [hi] at hr
        exact absurd hr (by simp)

/-- A list without '/' has no last-slash index. -/
theorem lastIndexOfSlash_none {cs : List Char}
    (h : '/' ∉ cs) : lastIndexOfSlash cs = none := by
  induction cs with
  | nil => rfl
  | cons c rest ih =>
    simp only [lastIndexOfSlash]
    rw [ih (fun hm => h (List.mem_cons_of_mem c hm))]
    simp only []
    split
    · next hc => exact absurd (hc ▸ List.mem_cons_self c rest) h
    · rfl

/-- When the previous URL contains a separator, the spliced URL ends in
"/" followed by the new name. -/
theorem spliceTransformUrl_suffix {url X : String} (h : '/' ∈ url.data) :
    ("/" ++ X).data <:+ (spliceTransformUrl url X).data := by
  obtain ⟨i, hi⟩ := lastIndexOfSlash_isSome h
  have hs : spliceTransformUrl url X = String.mk (url.data.take (i + 1)) ++ X := by
    unfold spliceTransformUrl
    rw [hi]
  rw [hs, String.data_append, lastIndexOfSlash_take hi]
  refine ⟨url.data.take i, ?_⟩
  show url.data.take i ++ ('/' :: X.data) = (url.data.take i ++ ['/']) ++ X.data
  simp

/-- The tracker state of a reverted entry is empty. -/
theorem trackerState_self (orig : String × String) : trackerState orig orig = none := by
  simp [trackerState]

/-- A script.js event sequence leaves the tracker in the state determined
by the last event's values. -/
theorem handleInputChange_foldl (orig : String × String) (evs : List (String × String)) :
    ∀ v, evs.foldl (handleInputChange orig) (trackerState orig v)
      = trackerState orig (evs.foldl (fun _ e => e) v) := by
  induction evs with
  | nil => intro v; rfl
  | cons e evs ih =>
    intro v
    simp only [List.foldl_cons]
    rw [show handleInputChange orig (trackerState orig v) e = trackerState orig e from rfl]
    exact ih e

/-- The tracker entry always mirrors the current values: getD recovers
them whether or not the entry is present. -/
theorem trackerState_getD (orig v : String × String) :
    (trackerState orig v).getD orig = v := by
  unfold trackerState
  split
  · rfl
  · next hcond =>
    simp only [Bool.or_eq_true, bne_iff_ne] at hcond
    push_neg at hcond
    obtain ⟨h1, h2⟩ := hcond
    simp [Option.getD]
    exact Prod.ext h1.symm h2.symm

/-- One part_000 cell-change event moves the tracker entry exactly as the
edited field moves the current values. -/
theorem handleCellChange_step (orig v : String × String) (ev : EditField × String) :
    handleCellChange orig (trackerState orig v) ev = trackerState orig (applyCellEv v ev) := by
  unfold handleCellChange
  rw [trackerState_getD]
  cases ev with
  | mk f val => cases f <;> rfl

/-- A part_000 event sequence leaves the tracker in the state determined
by the per-field current values. -/
theorem handleCellChange_foldl (orig : String × String) (evs : List (EditField × String)) :
    ∀ v, evs.foldl (handleCellChange orig) (trackerState orig v)
      = trackerState orig (evs.foldl applyCellEv v) := by
  induction evs with
  | nil => intro v; rfl
  | cons e evs ih =>
    intro v
    simp only [List.foldl_cons]
    rw [handleCellChange_step]
    exact ih (applyCellEv v e)

/-- The tracker entry is present exactly when the current values differ
from the originals. -/
theorem trackerState_isSome (orig v : String × String) :
    (trackerState orig v).isSome = true ↔ v ≠ orig := by
  unfold trackerState
  split
  · next hcond =>
    simp only [Option.isSome_some, true_iff]
    intro hv
    subst hv
    simp at hcond
  · next hcond =>
    simp only [Bool.or_eq_true, bne_iff_ne] at hcond
    push_neg at hcond
    obtain ⟨h1, h2⟩ := hcond
    simp [Prod.ext h1 h2]

/-- Auxiliary for rewriteFirst_not_found over array elements. -/
theorem rewriteList_not_found_aux (bid : String) (mod : ScriptMod) (xs : List Json)
    (ih : ∀ x ∈ xs, findImageInStoryContentById x bid = .ok none →
      rewriteFirstScript x bid mod = .ok (x, false))
    (h : findImageList xs bid = .ok none) : rewriteList xs bid mod = .ok (xs, false) := by
  induction xs with
  | nil => rfl
  | cons x xs ihl =>
    simp only [findImageList] at h
    simp only [rewriteList]
    split at h
    · exact absurd h (by simp)
    · next r hr => exact absurd h (by simp)
    · next hx =>
      rw [ih x (by simp) hx]
      rw [ihl (fun y hy => ih y (by simp [hy])) h]

/-- Auxiliary for rewriteFirst_not_found over object fields. -/
theorem rewriteFields_not_found_aux (bid : String) (mod : ScriptMod)
    (fs : List (String × Json))
    (ih : ∀ kv ∈ fs, findImageInStoryContentById kv.2 bid = .ok none →
      rewriteFirstScript kv.2 bid mod = .ok (kv.2, false))
    (h : findImageFields fs bid = .ok none) : rewriteFields fs bid mod = .ok (fs, false) := by
  induction fs with
  | nil => rfl
  | cons kv fs ihl =>
    obtain ⟨k, v⟩ := kv
    simp only [findImageFields] at h
    simp only [rewriteFields]
    split at h
    · exact absurd h (by simp)
    · next r hr => exact absurd h (by simp)
    · next hx =>
      rw [ih (k, v) (by simp) hx]
      rw [ihl (fun y hy => ih y (by simp [hy])) h]

/-- When findImageInStoryContentById reports no match, the find-then-
mutate step leaves the tree unchanged and reports not found. -/
theorem rewriteFirst_not_found : ∀ (j : Json) (bid : String) (mod : ScriptMod),
    findImageInStoryContentById j bid = .ok none →
    rewriteFirstScript j bid mod = .ok (j, false) := by
  intro j
  induction j using Json.inductionOn with
  | hnull => intro bid mod h; rfl
  | hbool => intro bid mod h; rfl
  | hnum => intro bid mod h; rfl
  | hstr => intro bid mod h; rfl
  | harr xs ih =>
    intro bid mod h
    simp only [findImageInStoryContentById] at h
    simp only [rewriteFirstScript]
    rw [rewriteList_not_found_aux bid mod xs (fun x hx => ih x hx bid mod) h]
  | hobj fs ih =>
    intro bid mod h
    simp only [findImageInStoryContentById] at h
    simp only [rewriteFirstScript]
    split at h
    · exact absurd h (by simp)
    · next hp => exact absurd h (by simp)
    · next hp =>
      rw [rewriteFields_not_found_aux bid mod fs (fun kv hkv => ih kv hkv bid mod) h]

/-- A wrapper that does not carry the target _uid is returned unchanged,
unless scanning it throws. -/
theorem updateWrapperStep_not_matched (mod : P0ModEntry) (w : Json)
    (h : (match w with
          | Json.obj wfs => strictEqStr (lookupField wfs "_uid") mod.uid
          | _ => false) = false) :
    updateWrapperStep mod w = .ok w ∨ updateWrapperStep mod w = .error () := by
  cases w with
  | null => exact Or.inr rfl
  | bool c => exact Or.inl rfl
  | num n => exact Or.inl rfl
  | str t => exact Or.inl rfl
  | arr xs => exact Or.inl rfl
  | obj wfs =>
    replace h : strictEqStr (lookupField wfs "_uid") mod.uid = false := h
    simp only [updateWrapperStep]
    rw [if_neg (by simp [h])]
    exact Or.inl rfl

/-- A tagged array without the target _uid survives the wrapper scan
unchanged when the scan returns. -/
theorem updateWrapperList_not_matched (mod : P0ModEntry) :
    ∀ (ws ws2 : List Json), uidInWrappers mod.uid ws = false →
    updateWrapperList mod ws = .ok ws2 → ws2 = ws := by
  intro ws
  induction ws with
  | nil =>
    intro ws2 h1 h2
    replace h2 : (Except.ok ([] : List Json) : Except Unit (List Json)) = .ok ws2 := h2
    simp only [Except.ok.injEq] at h2
    exact h2.symm
  | cons w ws ih =>
    intro ws2 h1 h2
    simp only [uidInWrappers, List.any_cons, Bool.or_eq_false_iff] at h1
    obtain ⟨hw, hrest⟩ := h1
    simp only [updateWrapperList] at h2
    rcases updateWrapperStep_not_matched mod w hw with hstep | hstep
    · cases hrec : updateWrapperList mod ws with
      | error e =>
        rw [hstep, hrec] at h2
        exact Except.noConfusion h2
      | ok ws3 =>
        rw [hstep, hrec] at h2
        replace h2 : (Except.ok (w :: ws3) : Except Unit (List Json)) = .ok ws2 := h2
        simp only [Except.ok.injEq] at h2
        subst h2
        rw [ih ws3 hrest hrec]
    · rw [hstep] at h2
      exact Except.noConfusion h2

/-- Auxiliary for updateImageRecursive_noTarget over array elements. -/
theorem updateJsonList_noTarget_aux (mod : P0ModEntry) (xs : List Json)
    (ih : ∀ x ∈ xs, ∀ c', uidTargeted mod.uid x = false →
      updateImageRecursive mod x = .ok c' → c' = x) :
    ∀ xs2, uidTargetedList mod.uid xs = false →
    updateJsonList mod xs = .ok xs2 → xs2 = xs := by
  induction xs with
  | nil =>
    intro xs2 h1 h2
    simp only [updateJsonList, Except.ok.injEq] at h2
    exact h2.symm
  | cons x xs ihl =>
    intro xs2 h1 h2
    simp only [uidTargetedList, Bool.or_eq_false_iff] at h1
    obtain ⟨hx, hrest⟩ := h1
    simp only [updateJsonList] at h2
    split at h2
    · exact absurd h2 (by simp)
    · next x2 hx2 =>
      split at h2
      · exact absurd h2 (by simp)
      · next xs3 hxs3 =>
        simp only [Except.ok.injEq] at h2
        subst h2
        rw [ih x (by simp) x2 hx hx2, ihl (fun y hy => ih y (by simp [hy])) xs3 hrest hxs3]

/-- Auxiliary for updateImageRecursive_noTarget over an object's fields. -/
theorem updateJsonFields_noTarget_aux (mod : P0ModEntry) (fs : List (String × Json))
    (ih : ∀ kv ∈ fs, ∀ c', uidTargeted mod.uid kv.2 = false →
      updateImageRecursive mod kv.2 = .ok c' → c' = kv.2) :
    ∀ fs2, uidTargetedFields mod.uid fs = false →
    updateJsonFields mod fs = .ok fs2 → fs2 = fs := by
  induction fs with
  | nil =>
    intro fs2 h1 h2
    replace h2 : (Except.ok ([] : List (String × Json))
        : Except Unit (List (String × Json))) = .ok fs2 := h2
    simp only [Except.ok.injEq] at h2
    exact h2.symm
  | cons kv fs ihl =>
    intro fs2 h1 h2
    obtain ⟨k, v⟩ := kv
    have htail : ∀ fs3, uidTargetedFields mod.uid fs = false →
        updateJsonFields mod fs = .ok fs3 → fs3 = fs :=
      ihl (fun y hy => ih y (by simp [hy]))
    cases v with
    | null =>
      simp only [uidTargetedFields, Bool.or_eq_false_iff] at h1
      simp only [updateJsonFields] at h2
      cases hrec : updateJsonFields mod fs with
      | error e =>
        rw [hrec] at h2
        exact Except.noConfusion h2
      | ok fs3 =>
        rw [hrec] at h2
        replace h2 : (Except.ok ((k, Json.null) :: fs3)
            : Except Unit (List (String × Json))) = .ok fs2 := h2
        simp only [Except.ok.injEq] at h2
        subst h2
        rw [htail fs3 h1.2 hrec]
    | bool c =>
      simp only [uidTargetedFields, Bool.or_eq_false_iff] at h1
      simp only [updateJsonFields] at h2
      cases hrec : updateJsonFields mod fs with
      | error e =>
        rw [hrec] at h2
        exact Except.noConfusion h2
      | ok fs3 =>
        rw [hrec] at h2
        replace h2 : (Except.ok ((k, Json.bool c) :: fs3)
            : Except Unit (List (String × Json))) = .ok fs2 := h2
        simp only [Except.ok.injEq] at h2
        subst h2
        rw [htail fs3 h1.2 hrec]
    | num n =>
      simp only [uidTargetedFields, Bool.or_eq_false_iff] at h1
      simp only [updateJsonFields] at h2
      cases hrec : updateJsonFields mod fs with
      | error e =>
        rw [hrec] at h2
        exact Except.noConfusion h2
      | ok fs3 =>
        rw [hrec] at h2
        replace h2 : (Except.ok ((k, Json.num n) :: fs3)
            : Except Unit (List (String × Json))) = .ok fs2 := h2
        simp only [Except.ok.injEq] at h2
        subst h2
        rw [htail fs3 h1.2 hrec]
    | str t =>
      simp only [uidTargetedFields, Bool.or_eq_false_iff] at h1
      simp only [updateJsonFields] at h2
      cases hrec : updateJsonFields mod fs with
      | error e =>
        rw [hrec] at h2
        exact Except.noConfusion h2
      | ok fs3 =>
        rw [hrec] at h2
        replace h2 : (Except.ok ((k, Json.str t) :: fs3)
            : Except Unit (List (String × Json))) = .ok fs2 := h2
        simp only [Except.ok.injEq] at h2
        subst h2
        rw [htail fs3 h1.2 hrec]
    | obj ofs =>
      simp only [uidTargetedFields, Bool.or_eq_false_iff] at h1
      simp only [updateJsonFields] at h2
      cases hstep : updateImageRecursive mod (Json.obj ofs) with
      | error e =>
        rw [hstep] at h2
        exact Except.noConfusion h2
      | ok v2 =>
        rw [hstep] at h2
        have hv2 : v2 = Json.obj ofs := ih (k, .obj ofs) (by simp) v2 h1.1 hstep
        cases hrec : updateJsonFields mod fs with
        | error e =>
          rw [hrec] at h2
          exact Except.noConfusion h2
        | ok fs3 =>
          rw [hrec] at h2
          replace h2 : (Except.ok ((k, v2) :: fs3)
              : Except Unit (List (String × Json))) = .ok fs2 := h2
          simp only [Except.ok.injEq] at h2
          subst h2
          rw [htail fs3 h1.2 hrec, hv2]
    | arr xs =>
      cases xs with
      | nil =>
        simp only [uidTargetedFields, Bool.or_eq_false_iff] at h1
        simp only [updateJsonFields] at h2
        cases hrec : updateJsonFields mod fs with
        | error e =>
          rw [show updateImageRecursive mod (Json.arr []) = .ok (.arr []) from rfl, hrec] at h2
          exact Except.noConfusion h2
        | ok fs3 =>
          rw [show updateImageRecursive mod (Json.arr []) = .ok (.arr []) from rfl, hrec] at h2
          replace h2 : (Except.ok ((k, Json.arr []) :: fs3)
              : Except Unit (List (String × Json))) = .ok fs2 := h2
          simp only [Except.ok.injEq] at h2
          subst h2
          rw [htail fs3 h1.2 hrec]
      | cons e0 rest =>
        simp only [uidTargetedFields, Bool.or_eq_false_iff] at h1
        simp only [updateJsonFields] at h2
        by_cases hguard : (truthy e0 && strictEqStr (getField e0 "component") "bynder_image") = true
        · rw [if_pos hguard] at h2
          rw [if_pos hguard] at h1
          cases hwl : updateWrapperList mod (e0 :: rest) with
          | error e =>
            rw [hwl] at h2
            exact Except.noConfusion h2
          | ok ws2 =>
            rw [hwl] at h2
            have hws : ws2 = e0 :: rest :=
              updateWrapperList_not_matched mod (e0 :: rest) ws2 h1.1 hwl
            cases hrec : updateJsonFields mod fs with
            | error e =>
              rw [hrec] at h2
              exact Except.noConfusion h2
            | ok fs3 =>
              rw [hrec] at h2
              replace h2 : (Except.ok ((k, Json.arr ws2) :: fs3)
                  : Except Unit (List (String × Json))) = .ok fs2 := h2
              simp only [Except.ok.injEq] at h2
              subst h2
              rw [htail fs3 h1.2 hrec, hws]
        · rw [if_neg hguard] at h2
          rw [if_neg hguard] at h1
          cases hstep : updateImageRecursive mod (Json.arr (e0 :: rest)) with
          | error e =>
            rw [hstep] at h2
            exact Except.noConfusion h2
          | ok v2 =>
            rw [hstep] at h2
            have hv2 : v2 = Json.arr (e0 :: rest) :=
              ih (k, .arr (e0 :: rest)) (by simp) v2 h1.1 hstep
            cases hrec : updateJsonFields mod fs with
            | error e =>
              rw [hrec] at h2
              exact Except.noConfusion h2
            | ok fs3 =>
              rw [hrec] at h2
              replace h2 : (Except.ok ((k, v2) :: fs3)
                  : Except Unit (List (String × Json))) = .ok fs2 := h2
              simp only [Except.ok.injEq] at h2
              subst h2
              rw [htail fs3 h1.2 hrec, hv2]

/-- When no wrapper anywhere in the tree carries the edit's _uid and the
scan returns, updateImageRecursive is the identity: the pending edit is
skipped. -/
theorem updateImageRecursive_noTarget : ∀ (j : Json) (mod : P0ModEntry) (c' : Json),
    uidTargeted mod.uid j = false → updateImageRecursive mod j = .ok c' → c' = j := by
  intro j
  induction j using Json.inductionOn with
  | hnull =>
    intro mod c' h1 h2
    replace h2 : (Except.ok Json.null : Except Unit Json) = .ok c' := h2
    simp only [Except.ok.injEq] at h2
    exact h2.symm
  | hbool b =>
    intro mod c' h1 h2
    replace h2 : (Except.ok (Json.bool b) : Except Unit Json) = .ok c' := h2
    simp only [Except.ok.injEq] at h2
    exact h2.symm
  | hnum n =>
    intro mod c' h1 h2
    replace h2 : (Except.ok (Json.num n) : Except Unit Json) = .ok c' := h2
    simp only [Except.ok.injEq] at h2
    exact h2.symm
  | hstr s =>
    intro mod c' h1 h2
    replace h2 : (Except.ok (Json.str s) : Except Unit Json) = .ok c' := h2
    simp only [Except.ok.injEq] at h2
    exact h2.symm
  | harr xs ih =>
    intro mod c' h1 h2
    simp only [updateImageRecursive] at h2
    simp only [uidTargeted] at h1
    cases hrec : updateJsonList mod xs with
    | error e =>
      rw [hrec] at h2
      exact Except.noConfusion h2
    | ok xs2 =>
      rw [hrec] at h2
      replace h2 : (Except.ok (Json.arr xs2) : Except Unit Json) = .ok c' := h2
      simp only [Except.ok.injEq] at h2
      subst h2
      rw [updateJsonList_noTarget_aux mod xs
        (fun x hx c2 => ih x hx mod c2) xs2 h1 hrec]
  | hobj fs ih =>
    intro mod c' h1 h2
    simp only [updateImageRecursive] at h2
    simp only [uidTargeted] at h1
    cases hrec : updateJsonFields mod fs with
    | error e =>
      rw [hrec] at h2
      exact Except.noConfusion h2
    | ok fs2 =>
      rw [hrec] at h2
      replace h2 : (Except.ok (Json.obj fs2) : Except Unit Json) = .ok c' := h2
      simp only [Except.ok.injEq] at h2
      subst h2
      rw [updateJsonFields_noTarget_aux mod fs
        (fun kv hkv c2 => ih kv hkv mod c2) fs2 h1 hrec]

/-- After an abort, one further step does nothing. -/
theorem stepScript_aborted (env : ScriptEnv) (acc : ScriptRun)
    (e : Nat × List (String × ScriptMod)) (h : acc.aborted = true) :
    stepScript env acc e = acc := by
  unfold stepScript
  rw [if_pos h]

/-- After an abort, the rest of the loop does nothing. -/
theorem foldl_stepScript_aborted (env : ScriptEnv) :
    ∀ (es : List (Nat × List (String × ScriptMod))) (acc : ScriptRun),
    acc.aborted = true → List.foldl (stepScript env) acc es = acc := by
  intro es
  induction es with
  | nil => intro acc h; rfl
  | cons e es ih =>
    intro acc h
    simp only [List.foldl_cons, stepScript_aborted env acc e h]
    exact ih acc h

/-- One step from any live accumulator contributes exactly what it
contributes from the empty run. -/
theorem stepScript_combine (env : ScriptEnv) (acc : ScriptRun)
    (e : Nat × List (String × ScriptMod)) (h : acc.aborted = false) :
    stepScript env acc e = combineRuns acc (stepScript env initRun e) := by
  unfold stepScript
  rw [if_neg (by simp [h]), if_neg (by simp [initRun])]
  cases hp : processStoryScript env e.1 e.2 with
  | error u =>
    cases acc
    simp_all [combineRuns, initRun]
  | ok oc =>
    cases oc with
    | skippedNoMods =>
      cases acc
      simp_all [combineRuns, initRun]
    | fetchFailed =>
      cases acc
      simp_all [combineRuns, initRun]
    | noChanges ws =>
      cases acc
      simp_all [combineRuns, initRun]
    | putDone doc ok ws =>
      cases ok <;> (cases acc; simp_all [combineRuns, initRun])

/-- combineRuns is associative. -/
theorem combineRuns_assoc (a b c : ScriptRun) :
    combineRuns (combineRuns a b) c = combineRuns a (combineRuns b c) := by
  simp [combineRuns, Nat.add_assoc]

/-- A live run absorbs the empty run on the right. -/
theorem combineRuns_initRun (a : ScriptRun) (h : a.aborted = false) :
    combineRuns a initRun = a := by
  cases a
  simp_all [combineRuns, initRun]

/-- The loop from any live accumulator is the accumulator composed with
the loop from the empty run. -/
theorem foldl_stepScript_combine (env : ScriptEnv) :
    ∀ (ys : List (Nat × List (String × ScriptMod))) (acc : ScriptRun),
    acc.aborted = false →
    List.foldl (stepScript env) acc ys
      = combineRuns acc (List.foldl (stepScript env) initRun ys) := by
  intro ys
  induction ys with
  | nil =>
    intro acc h
    exact (combineRuns_initRun acc h).symm
  | cons y ys ih =>
    intro acc h
    simp only [List.foldl_cons]
    rw [stepScript_combine env acc y h]
    cases hA : (stepScript env initRun y).aborted with
    | false =>
      have h2 : (combineRuns acc (stepScript env initRun y)).aborted = false := hA
      rw [ih (combineRuns acc (stepScript env initRun y)) h2, ih (stepScript env initRun y) hA,
        combineRuns_assoc]
    | true =>
      have h2 : (combineRuns acc (stepScript env initRun y)).aborted = true := hA
      rw [foldl_stepScript_aborted env ys (combineRuns acc (stepScript env initRun y)) h2,
        foldl_stepScript_aborted env ys (stepScript env initRun y) hA]

/-- One loop step issues at most one PUT, keyed by its own story id. -/
theorem stepScript_puts (env : ScriptEnv) (acc : ScriptRun)
    (e : Nat × List (String × ScriptMod)) :
    (stepScript env acc e).puts = acc.puts ∨
      ∃ doc, (stepScript env acc e).puts = acc.puts ++ [(e.1, doc)] := by
  unfold stepScript
  split
  · exact Or.inl rfl
  · split
    · exact Or.inl rfl
    · exact Or.inl rfl
    · exact Or.inl rfl
    · exact Or.inl rfl
    · exact Or.inr ⟨_, rfl⟩
    · exact Or.inr ⟨_, rfl⟩

/-- The loop only appends PUTs, and their story ids form a sublist of the
processed entries' ids. -/
theorem foldl_stepScript_puts (env : ScriptEnv) :
    ∀ (es : List (Nat × List (String × ScriptMod))) (acc : ScriptRun),
    ∃ extra, (List.foldl (stepScript env) acc es).puts = acc.puts ++ extra ∧
      List.Sublist (extra.map Prod.fst) (es.map Prod.fst) := by
  intro es
  induction es with
  | nil => intro acc; exact ⟨[], by simp⟩
  | cons e es ih =>
    intro acc
    simp only [List.foldl_cons]
    obtain ⟨extra, hex, hsub⟩ := ih (stepScript env acc e)
    rcases stepScript_puts env acc e with hstep | ⟨doc, hstep⟩
    · exact ⟨extra, by rw [hex, hstep], by simp [List.Sublist.cons, hsub]⟩
    · refine ⟨(e.1, doc) :: extra, ?_, ?_⟩
      · rw [hex, hstep]
        simp
      · simpa using List.Sublist.cons₂ e.1 hsub

/-- A PUT outcome certifies a fresh fetch and the application of the
pending modification list to the fetched content. -/
theorem processStory_putDone (env : ScriptEnv) (sid : Nat)
    (mods : List (String × ScriptMod)) (doc : Story) (r : Bool) (ws : List String)
    (h : processStoryScript env sid mods = .ok (.putDone doc r ws)) :
    ∃ story c2, env.fetchStory sid = some story ∧
      applyModsAux mods (story.content, false, []) = .ok (c2, true, ws) ∧
      doc = ⟨story.id, c2⟩ := by
  unfold processStoryScript at h
  split at h
  · exact absurd h (by simp)
  · split at h
    · exact absurd h (by simp)
    · next story hfetch =>
      split at h
      · exact absurd h (by simp)
      · next c2 applied ws2 happly =>
        split at h
        · exact absurd h (by simp)
        · next hap =>
          replace hap : applied = true := by
            revert hap
            cases applied <;> simp
          subst hap
          split at h
          · simp only [Except.ok.injEq, StoryOutcome.putDone.injEq] at h
            obtain ⟨hdoc, hr, hws⟩ := h
            subst hws
            exact ⟨story, c2, hfetch, happly, hdoc.symm⟩
          · simp only [Except.ok.injEq, StoryOutcome.putDone.injEq] at h
            obtain ⟨hdoc, hr, hws⟩ := h
            subst hws
            exact ⟨story, c2, hfetch, happly, hdoc.symm⟩

/-- Every PUT the loop issues carries a freshly fetched story document
with the pending modifications applied to the fetched content. -/
theorem foldl_stepScript_puts_fresh (env : ScriptEnv) :
    ∀ (es : List (Nat × List (String × ScriptMod))) (acc : ScriptRun),
    (∀ p ∈ acc.puts, ∃ story mods c2 ws, env.fetchStory p.1 = some story ∧
      applyModsAux mods (story.content, false, []) = .ok (c2, true, ws) ∧
      p.2 = ⟨story.id, c2⟩) →
    ∀ p ∈ (List.foldl (stepScript env) acc es).puts,
      ∃ story mods c2 ws, env.fetchStory p.1 = some story ∧
        applyModsAux mods (story.content, false, []) = .ok (c2, true, ws) ∧
        p.2 = ⟨story.id, c2⟩ := by
  intro es
  induction es with
  | nil => intro acc hacc; exact hacc
  | cons e es ih =>
    intro acc hacc
    simp only [List.foldl_cons]
    refine ih (stepScript env acc e) ?_
    intro p hp
    revert hp
    unfold stepScript
    split
    · exact fun hp => hacc p hp
    · split
      · exact fun hp => hacc p hp
      · exact fun hp => hacc p hp
      · exact fun hp => hacc p hp
      · exact fun hp => hacc p hp
      · next doc ws hproc =>
        intro hp
        rcases List.mem_append.mp hp with hp2 | hp2
        · exact hacc p hp2
        · obtain ⟨story, c2, hfetch, happly, hdoc⟩ :=
            processStory_putDone env e.1 e.2 doc true ws hproc
          have hpe : p = (e.1, doc) := by simpa using hp2
          subst hpe
          exact ⟨story, e.2, c2, ws, hfetch, happly, hdoc⟩
      · next doc ws hproc =>
        intro hp
        rcases List.mem_append.mp hp with hp2 | hp2
        · exact hacc p hp2
        · obtain ⟨story, c2, hfetch, happly, hdoc⟩ :=
            processStory_putDone env e.1 e.2 doc false ws hproc
          have hpe : p = (e.1, doc) := by simpa using hp2
          subst hpe
          exact ⟨story, e.2, c2, ws, hfetch, happly, hdoc⟩

/-- UpdateReach extends by one more pass on the right. -/
theorem UpdateReach.snoc {a b c : Json} (m : P0ModEntry)
    (hab : UpdateReach a b) (hbc : updateImageRecursive m b = .ok c) :
    UpdateReach a c := by
  induction hab with
  | refl d => exact UpdateReach.step m d c c hbc (UpdateReach.refl c)
  | step m2 d d2 d3 hd hrest ih => exact UpdateReach.step m2 d d2 c hd (ih hbc)

/-- A successful story lookup is a membership with the looked-up id. -/
theorem lookupStory_mem : ∀ (stories : List (Nat × Story)) (sid : Nat) (st : Story),
    lookupStory stories sid = some st → (sid, st) ∈ stories := by
  intro stories
  induction stories with
  | nil => intro sid st h; exact absurd h (by simp [lookupStory])
  | cons p rest ih =>
    intro sid st h
    obtain ⟨a, st0⟩ := p
    simp only [lookupStory] at h
    split at h
    · next ha =>
      simp only [Option.some.injEq] at h
      subst h
      have : a = sid := by simpa using ha
      subst this
      exact List.mem_cons_self _ _
    · exact List.mem_cons_of_mem _ (ih sid st h)

/-- Members after a replacement are either old members or the
replacement pair itself. -/
theorem replaceStory_mem : ∀ (stories : List (Nat × Story)) (sid : Nat) (st2 : Story)
    (p : Nat × Story), p ∈ replaceStory stories sid st2 →
    p ∈ stories ∨ p = (sid, st2) := by
  intro stories
  induction stories with
  | nil => intro sid st2 p h; exact absurd h (by simp [replaceStory])
  | cons q rest ih =>
    intro sid st2 p h
    obtain ⟨a, st0⟩ := q
    simp only [replaceStory] at h
    split at h
    · next ha =>
      rcases List.mem_cons.mp h with hp | hp
      · subst hp
        have : a = sid := by simpa using ha
        exact Or.inr (by rw [this])
      · exact Or.inl (List.mem_cons_of_mem _ hp)
    · rcases List.mem_cons.mp h with hp | hp
      · exact Or.inl (hp ▸ List.mem_cons_self _ _)
      · rcases ih sid st2 p hp with h2 | h2
        · exact Or.inl (List.mem_cons_of_mem _ h2)
        · exact Or.inr h2

/-- The gathering phase only adds entries whose story was freshly
fetched under its own id. -/
theorem gatherStories_sound (env : ScriptEnv) :
    ∀ (ms : List P0ModEntry) (acc : List (Nat × Story)),
    (∀ p ∈ acc, env.fetchStory p.1 = some p.2) →
    ∀ res, gatherStories env ms acc = .ok res →
    ∀ p ∈ res, env.fetchStory p.1 = some p.2 := by
  intro ms
  induction ms with
  | nil =>
    intro acc hacc res h
    replace h : (Except.ok acc : Except Unit (List (Nat × Story))) = .ok res := h
    simp only [Except.ok.injEq] at h
    subst h
    exact hacc
  | cons m ms ih =>
    intro acc hacc res h
    simp only [gatherStories] at h
    split at h
    · exact ih acc hacc res h
    · split at h
      · exact absurd h (by simp)
      · next st hfetch =>
        refine ih (acc ++ [(m.storyId, st)]) ?_ res h
        intro p hp
        rcases List.mem_append.mp hp with hp2 | hp2
        · exact hacc p hp2
        · have : p = (m.storyId, st) := by simpa using hp2
          subst this
          exact hfetch

/-- The update phase only rewrites entries by updateImageRecursive
passes: each resulting entry derives from an entry of the input list with
the same key and story id, its content update-reachable. -/
theorem applyModsP0_sound :
    ∀ (ms : List P0ModEntry) (stories res : List (Nat × Story)),
    applyModsP0 ms stories = .ok res →
    ∀ p ∈ res, ∃ st0, (p.1, st0) ∈ stories ∧ p.2.id = st0.id ∧
      UpdateReach st0.content p.2.content := by
  intro ms
  induction ms with
  | nil =>
    intro stories res h
    replace h : (Except.ok stories : Except Unit (List (Nat × Story))) = .ok res := h
    simp only [Except.ok.injEq] at h
    subst h
    exact fun p hp => ⟨p.2, hp, rfl, UpdateReach.refl _⟩
  | cons m ms ih =>
    intro stories res h
    simp only [applyModsP0] at h
    split at h
    · exact absurd h (by simp)
    · next st hst =>
      split at h
      · exact absurd h (by simp)
      · next c2 hc2 =>
        intro p hp
        obtain ⟨st1, hmem1, hid1, hreach1⟩ :=
          ih (replaceStory stories m.storyId ⟨st.id, c2⟩) res h p hp
        rcases replaceStory_mem stories m.storyId ⟨st.id, c2⟩ (p.1, st1) hmem1
          with h2 | h2
        · exact ⟨st1, h2, hid1, hreach1⟩
        · have hkey : p.1 = m.storyId := congrArg Prod.fst h2
          have hst1 : st1 = ⟨st.id, c2⟩ := congrArg Prod.snd h2
          subst hst1
          refine ⟨st, ?_, hid1, ?_⟩
          · rw [hkey]
            exact lookupStory_mem stories m.storyId st hst
          · exact UpdateReach.step m st.content c2 p.2.content hc2 hreach1

/-- The PUT phase only sends gathered-and-updated documents. -/
theorem putStoriesP0_sub (env : ScriptEnv) :
    ∀ (l : List (Nat × Story)) (p : Nat × Story),
    p ∈ (putStoriesP0 env l).1 → p ∈ l := by
  intro l
  induction l with
  | nil => intro p h; exact absurd h (by simp [putStoriesP0])
  | cons q rest ih =>
    intro p h
    obtain ⟨sid, st⟩ := q
    simp only [putStoriesP0] at h
    split at h
    · rcases List.mem_cons.mp h with hp | hp
      · exact hp ▸ List.mem_cons_self _ _
      · exact List.mem_cons_of_mem _ (ih p hp)
    · have : p = (sid, st) := by simpa using h
      exact this ▸ List.mem_cons_self _ _

/-- Claim C1, counterexample.  A node tagged 'bynder_image' with a
non-empty image array whose first element has databaseId 0 carries a
non-null numeric identifier, so the claim collects it (claimImageNodes);
extractImages omits it, because the source tests databaseId by JS
truthiness and 0 is falsy.  And the same node with databaseId 5 is
returned by extractImages but not by findImagesInContent, which only
scans object fields holding tagged arrays and never qualifies the root
node itself, so the two locators also disagree with each other. -/
theorem c1_counterexample :
    extractImages (.obj [("component", .str "bynder_image"),
        ("image", .arr [.obj [("databaseId", .num 0)]])]) = .ok []
    ∧ claimImageNodes (.obj [("component", .str "bynder_image"),
        ("image", .arr [.obj [("databaseId", .num 0)]])])
      = [.obj [("component", .str "bynder_image"),
          ("image", .arr [.obj [("databaseId", .num 0)]])]]
    ∧ extractImages (.obj [("component", .str "bynder_image"),
        ("image", .arr [.obj [("databaseId", .num 5)]])])
      = .ok [.obj [("component", .str "bynder_image"),
          ("image", .arr [.obj [("databaseId", .num 5)]])]]
    ∧ findImagesInContent (.obj [("component", .str "bynder_image"),
        ("image", .arr [.obj [("databaseId", .num 5)]])]) "root" = .ok [] :=
  ⟨rfl, rfl, rfl, rfl⟩

/-- Claim C1 (amended): whenever extractImages completes without
throwing, it returns exactly the depth-first preorder sequence of nodes
that carry component 'bynder_image', a truthy non-empty 'image' array,
and a truthy databaseId on the array's first element (JS truthiness, not
the claimed non-null numeric test); nodes failing the qualification are
silently omitted.  The part_000 findImagesInContent follows a different
field-scanning rule and is not characterized by this collector. -/
theorem c1_locator_collects (j : Json) (l : List Json)
    (h : extractImages j = .ok l) : l = collectImageNodes j :=
  extractImages_ok j l h

/-- Claim C1, witness: the locator run on the databaseId-5 node returns
exactly the collector's depth-first sequence. -/
theorem c1_witness :
    [Json.obj [("component", .str "bynder_image"),
        ("image", .arr [.obj [("databaseId", .num 5)]])]]
    = collectImageNodes (.obj [("component", .str "bynder_image"),
        ("image", .arr [.obj [("databaseId", .num 5)]])]) :=
  c1_locator_collects _ _ rfl

/-- Claim C2, counterexample.  In part_000, with a previous transform URL
containing no '/' ("noslash") and a file name change ("b" differing from
the original "a"), the name is written but the URL stays "noslash"
instead of becoming the bare new file name: updateImageRecursive's URL
derivation has no branch for lastIndexOf returning -1, so the claimed
no-separator behaviour holds only in script.js. -/
theorem c2_counterexample :
    lastIndexOfSlash ("noslash" : String).data = none
    ∧ normalizeFileName "b" ≠ "a"
    ∧ (applyModPart000 ⟨"a", "", "noslash"⟩ ⟨"b", "", "a", ""⟩).name = "b"
    ∧ (applyModPart000 ⟨"a", "", "noslash"⟩ ⟨"b", "", "a", ""⟩).transformUrl = "noslash"
    ∧ ("noslash" : String) ≠ "b" :=
  ⟨rfl, by decide, rfl, rfl, by decide⟩

/-- Claim C2 (amended): when the file name changes, both patchers set
the transform URL to the prefix of the previous URL up to and including
its last '/' followed by the applied file name (the proposed name in
script.js, its normalized form in part_000); when the previous URL has
no '/', script.js replaces it by the bare new file name while part_000
leaves it unchanged. -/
theorem c2_transform_url :
    (∀ (st : ImgState) (mod : ScriptMod), st.name ≠ mod.newFileName →
      (∀ i, lastIndexOfSlash st.transformUrl.data = some i →
        (applyModScript st mod).transformUrl
          = String.mk (st.transformUrl.data.take (i + 1)) ++ mod.newFileName) ∧
      (lastIndexOfSlash st.transformUrl.data = none →
        (applyModScript st mod).transformUrl = mod.newFileName))
    ∧ (∀ (st : ImgState) (mod : P0Mod),
        normalizeFileName mod.fileName ≠ mod.originalFileName →
      (∀ i, lastIndexOfSlash st.transformUrl.data = some i →
        (applyModPart000 st mod).transformUrl
          = String.mk (st.transformUrl.data.take (i + 1)) ++ normalizeFileName mod.fileName) ∧
      (lastIndexOfSlash st.transformUrl.data = none →
        (applyModPart000 st mod).transformUrl = st.transformUrl)) := by
  constructor
  · intro st mod hne
    have hc : (st.name != mod.newFileName) = true := bne_iff_ne.mpr hne
    have hurl : (applyModScript st mod).transformUrl
        = spliceTransformUrl st.transformUrl mod.newFileName := by
      simp [applyModScript, hc]
    constructor
    · intro i hi
      rw [hurl]
      unfold spliceTransformUrl
      rw [hi]
    · intro hnone
      rw [hurl]
      unfold spliceTransformUrl
      rw [hnone]
  · intro st mod hne
    have hc : (normalizeFileName mod.fileName != mod.originalFileName) = true :=
      bne_iff_ne.mpr hne
    have hurl : (applyModPart000 st mod).transformUrl
        = spliceTransformUrlPart000 st.transformUrl (normalizeFileName mod.fileName) := by
      simp [applyModPart000, hc]
    constructor
    · intro i hi
      rw [hurl]
      unfold spliceTransformUrlPart000
      rw [hi]
    · intro hnone
      rw [hurl]
      unfold spliceTransformUrlPart000
      rw [hnone]

/-- Claim C2, witness: patching "cdn/x/a.jpg" with file name "b.jpg"
yields the prefix up to the last '/' (index 5) plus the new name. -/
theorem c2_witness :
    (applyModScript ⟨"a.jpg", "x", "cdn/x/a.jpg"⟩ ⟨"b.jpg", "x"⟩).transformUrl
      = String.mk (("cdn/x/a.jpg" : String).data.take (5 + 1)) ++ "b.jpg" :=
  (c2_transform_url.1 ⟨"a.jpg", "x", "cdn/x/a.jpg"⟩ ⟨"b.jpg", "x"⟩ (by decide)).1 5 rfl

/-- Claim C3, counterexample.  script.js: a node whose current name
already equals the proposed X="a.jpg" (while its URL basename is
"b.jpg") is left entirely unchanged, so after the patch the URL does not
end in "/a.jpg" even though it contains a separator.  part_000: a patch
with X="B" writes the normalized name "b", so re-reading yields a name
different from X. -/
theorem c3_counterexample :
    '/' ∈ ("x/b.jpg" : String).data
    ∧ (applyModScript ⟨"a.jpg", "x", "x/b.jpg"⟩ ⟨"a.jpg", "x"⟩).name = "a.jpg"
    ∧ (applyModScript ⟨"a.jpg", "x", "x/b.jpg"⟩ ⟨"a.jpg", "x"⟩).transformUrl = "x/b.jpg"
    ∧ ¬ (("/" ++ "a.jpg").data <:+ ("x/b.jpg" : String).data)
    ∧ (applyModPart000 ⟨"a", "y", "x/a"⟩ ⟨"B", "y", "a", "y"⟩).name = "b"
    ∧ ("b" : String) ≠ "B" :=
  ⟨by decide, rfl, rfl, by decide, rfl, by decide⟩

/-- Claim C3 (amended): when the previous URL contains a '/' and the
patch actually fires - in script.js the proposed name differs from the
node's current name, in part_000 the normalized name differs from the
stored original - re-reading the node yields the applied name (X for
script.js, normalize(X) for part_000) and a transform URL ending in "/"
followed by that applied name. -/
theorem c3_round_trip :
    (∀ (st : ImgState) (mod : ScriptMod), '/' ∈ st.transformUrl.data →
      st.name ≠ mod.newFileName →
      (applyModScript st mod).name = mod.newFileName ∧
      ("/" ++ mod.newFileName).data <:+ (applyModScript st mod).transformUrl.data)
    ∧ (∀ (st : ImgState) (mod : P0Mod), '/' ∈ st.transformUrl.data →
      normalizeFileName mod.fileName ≠ mod.originalFileName →
      (applyModPart000 st mod).name = normalizeFileName mod.fileName ∧
      ("/" ++ normalizeFileName mod.fileName).data
        <:+ (applyModPart000 st mod).transformUrl.data) := by
  constructor
  · intro st mod hsl hne
    have hc : (st.name != mod.newFileName) = true := bne_iff_ne.mpr hne
    refine ⟨by simp [applyModScript, hc], ?_⟩
    have hurl : (applyModScript st mod).transformUrl
        = spliceTransformUrl st.transformUrl mod.newFileName := by
      simp [applyModScript, hc]
    rw [hurl]
    exact spliceTransformUrl_suffix hsl
  · intro st mod hsl hne
    have hc : (normalizeFileName mod.fileName != mod.originalFileName) = true :=
      bne_iff_ne.mpr hne
    refine ⟨by simp [applyModPart000, hc], ?_⟩
    have hurl : (applyModPart000 st mod).transformUrl
        = spliceTransformUrlPart000 st.transformUrl (normalizeFileName mod.fileName) := by
      simp [applyModPart000, hc]
    have heq : spliceTransformUrlPart000 st.transformUrl (normalizeFileName mod.fileName)
        = spliceTransformUrl st.transformUrl (normalizeFileName mod.fileName) := by
      obtain ⟨i, hi⟩ := lastIndexOfSlash_isSome hsl
      unfold spliceTransformUrlPart000 spliceTransformUrl
      rw [hi]
    rw [hurl, heq]
    exact spliceTransformUrl_suffix hsl

/-- Claim C3, witness: patching "cdn/x/a.jpg" with "new.jpg" yields name
"new.jpg" and a URL with "/new.jpg" as a suffix. -/
theorem c3_witness :
    (applyModScript ⟨"a.jpg", "x", "cdn/x/a.jpg"⟩ ⟨"new.jpg", "y"⟩).name = "new.jpg"
    ∧ ("/" ++ "new.jpg").data
        <:+ (applyModScript ⟨"a.jpg", "x", "cdn/x/a.jpg"⟩ ⟨"new.jpg", "y"⟩).transformUrl.data :=
  c3_round_trip.1 ⟨"a.jpg", "x", "cdn/x/a.jpg"⟩ ⟨"new.jpg", "y"⟩ (by decide) (by decide)

/-- Claim C4 (confirmed): after any sequence of change events on one
(story, image) key, the tracker holds an entry for the key exactly when
the current values of the two tracked fields differ from the original
snapshot - for script.js events (both fields read at each change) and
for part_000 events (one field per change); reverting both fields
removes the entry, since isSome is false exactly when the entry is
none. -/
theorem c4_tracker_invariant :
    (∀ (orig : String × String) (evs : List (String × String)),
      (evs.foldl (handleInputChange orig) none).isSome = true ↔
        currentScript orig evs ≠ orig)
    ∧ (∀ (orig : String × String) (evs : List (EditField × String)),
      (evs.foldl (handleCellChange orig) none).isSome = true ↔
        currentPart000 orig evs ≠ orig) := by
  constructor
  · intro orig evs
    have h0 : (none : Option (String × String)) = trackerState orig orig :=
      (trackerState_self orig).symm
    rw [h0, handleInputChange_foldl orig evs orig]
    exact trackerState_isSome orig _
  · intro orig evs
    have h0 : (none : Option (String × String)) = trackerState orig orig :=
      (trackerState_self orig).symm
    rw [h0, handleCellChange_foldl orig evs orig]
    exact trackerState_isSome orig _

/-- Claim C4, witness: one event that changes the file name leaves an
entry present. -/
theorem c4_witness :
    (([(("n", "a") : String × String)].foldl (handleInputChange ("o", "a")) none).isSome = true ↔
      currentScript ("o", "a") [("n", "a")] ≠ ("o", "a")) :=
  c4_tracker_invariant.1 ("o", "a") [("n", "a")]

/-- Claim C9, counterexample.  Both locators throw a TypeError on
JSON-shaped inputs: extractImages dereferences databaseId on image[0]
when a tagged node's image array starts with null, and
findImagesInContent dereferences component on the first element of any
non-empty array-valued field, which throws when that element is null. -/
theorem c9_counterexample :
    extractImages (.obj [("component", .str "bynder_image"), ("image", .arr [.null])])
      = .error ()
    ∧ findImagesInContent (.obj [("a", .arr [.null])]) "root" = .error () :=
  ⟨rfl, rfl⟩

/-- Claim C9 (amended): both locators return the empty list without
error on every primitive input (null, boolean, number, string), and on
every tree satisfying the locator's safety predicate - extractSafe rules
out a null-or-undefined image[0] behind a qualifying tag, findSafe rules
out a null first element of a scanned array, a null wrapper, and a null
image[0] - the locator terminates with an ok result; totality fails on
the excluded trees, where the image[0] (respectively first-element)
dereference throws. -/
theorem c9_locator_totality :
    extractImages .null = .ok []
    ∧ (∀ b, extractImages (.bool b) = .ok [])
    ∧ (∀ n, extractImages (.num n) = .ok [])
    ∧ (∀ s, extractImages (.str s) = .ok [])
    ∧ (∀ pf, findImagesInContent .null pf = .ok [])
    ∧ (∀ b pf, findImagesInContent (.bool b) pf = .ok [])
    ∧ (∀ n pf, findImagesInContent (.num n) pf = .ok [])
    ∧ (∀ s pf, findImagesInContent (.str s) pf = .ok [])
    ∧ (∀ j, extractSafe j = true → ∃ l, extractImages j = .ok l)
    ∧ (∀ j pf, findSafe j = true → ∃ r, findImagesInContent j pf = .ok r) :=
  ⟨rfl, fun _ => rfl, fun _ => rfl, fun _ => rfl, fun _ => rfl, fun _ _ => rfl,
   fun _ _ => rfl, fun _ _ => rfl, extractSafe_no_throw, findSafe_no_throw⟩

/-- Claim C9, witness: the databaseId-5 node is extractSafe, and
extractImages indeed completes on it. -/
theorem c9_witness :
    ∃ l, extractImages (.obj [("component", .str "bynder_image"),
      ("image", .arr [.obj [("databaseId", .num 5)]])]) = .ok l :=
  c9_locator_totality.2.2.2.2.2.2.2.2.1 _ rfl

/-- Claim C10 (confirmed): part_000 writes the normalized pending file
name - whitespace runs collapsed to single hyphens, then lowercased - or
leaves the name alone; whenever the normalized name differs from the
stored original the written name is exactly the normalized form and the
URL is respliced with it; and on a representative input the
normalization behaves as claimed. -/
theorem c10_normalization :
    (∀ (st : ImgState) (mod : P0Mod),
      (applyModPart000 st mod).name = st.name ∨
      (applyModPart000 st mod).name = normalizeFileName mod.fileName)
    ∧ (∀ (st : ImgState) (mod : P0Mod),
        normalizeFileName mod.fileName ≠ mod.originalFileName →
        (applyModPart000 st mod).name = normalizeFileName mod.fileName ∧
        (∀ i, lastIndexOfSlash st.transformUrl.data = some i →
          (applyModPart000 st mod).transformUrl
            = String.mk (st.transformUrl.data.take (i + 1)) ++ normalizeFileName mod.fileName))
    ∧ normalizeFileName "Foo  BAR baz.JPG" = "foo-bar-baz.jpg"
    ∧ normalizeFileName "a b" = "a-b" := by
  refine ⟨?_, ?_, rfl, rfl⟩
  · intro st mod
    by_cases hc : (normalizeFileName mod.fileName != mod.originalFileName) = true
    · exact Or.inr (by simp [applyModPart000, hc])
    · refine Or.inl ?_
      simp only [Bool.not_eq_true] at hc
      simp [applyModPart000, hc]
  · intro st mod hne
    have hc : (normalizeFileName mod.fileName != mod.originalFileName) = true :=
      bne_iff_ne.mpr hne
    refine ⟨by simp [applyModPart000, hc], ?_⟩
    intro i hi
    have hurl : (applyModPart000 st mod).transformUrl
        = spliceTransformUrlPart000 st.transformUrl (normalizeFileName mod.fileName) := by
      simp [applyModPart000, hc]
    rw [hurl]
    unfold spliceTransformUrlPart000
    rw [hi]

/-- Claim C10, witness: the proposed name "New Pic" is written as
"new-pic" and spliced into the URL after the last '/' (index 5). -/
theorem c10_witness :
    (applyModPart000 ⟨"old", "x", "cdn/a/old"⟩ ⟨"New Pic", "x", "old", "x"⟩).transformUrl
      = String.mk (("cdn/a/old" : String).data.take (5 + 1)) ++ normalizeFileName "New Pic" :=
  (c10_normalization.2.1 ⟨"old", "x", "cdn/a/old"⟩ ⟨"New Pic", "x", "old", "x"⟩
    (by decide)).2 5 rfl

/-- Claim C5, counterexample.  A story with one pending edit receives no
PUT at all when its fresh fetch fails: the loop counts it as failed and
moves on, so "exactly one PUT per story with pending edits" does not
hold. -/
theorem c5_counterexample :
    (sendToServerScript ⟨fun _ => none, fun _ => true⟩
        [(1, [("b", ⟨"n", "a"⟩)])]).puts = []
    ∧ (sendToServerScript ⟨fun _ => none, fun _ => true⟩
        [(1, [("b", ⟨"n", "a"⟩)])]).failCount = 1
    ∧ [(("b", ⟨"n", "a"⟩) : String × ScriptMod)] ≠ [] :=
  ⟨rfl, rfl, by simp⟩

/-- Claim C5 (amended): the script.js send loop issues at most one PUT
per story id (the changed-story ids are distinct, and each loop
iteration contributes at most its own id to the PUT list), and exactly
one PUT carrying the whole patched document for every story whose fetch
succeeds, whose batched modification list applies with at least one node
re-located, and whose run is not aborted earlier; the per-story fetch or
PUT can still fail or be skipped, so one-PUT-per-story is an upper
bound, not a guarantee. -/
theorem c5_single_put :
    (∀ (env : ScriptEnv) (entries : List (Nat × List (String × ScriptMod))) (sid : Nat),
      (entries.map Prod.fst).Nodup →
      List.count sid ((sendToServerScript env entries).puts.map Prod.fst) ≤ 1)
    ∧ (∀ (env : ScriptEnv) (pre post : List (Nat × List (String × ScriptMod)))
        (sid : Nat) (mods : List (String × ScriptMod)) (story : Story) (c2 : Json)
        (ws : List String),
      env.fetchStory sid = some story →
      mods ≠ [] →
      applyModsAux mods (story.content, false, []) = .ok (c2, true, ws) →
      (sendToServerScript env (pre ++ (sid, mods) :: post)).aborted = false →
      (sid, (⟨story.id, c2⟩ : Story)) ∈
        (sendToServerScript env (pre ++ (sid, mods) :: post)).puts) := by
  constructor
  · intro env entries sid hnd
    obtain ⟨extra, hex, hsub⟩ := foldl_stepScript_puts env entries initRun
    have hputs : (sendToServerScript env entries).puts = extra := by
      show (List.foldl (stepScript env) initRun entries).puts = extra
      rw [hex]
      rfl
    rw [hputs]
    exact List.nodup_iff_count_le_one.mp (hnd.sublist hsub) sid
  · intro env pre post sid mods story c2 ws hfetch hmods happly habort
    have hne : mods.isEmpty = false := by
      cases mods
      · exact absurd rfl hmods
      · rfl
    unfold sendToServerScript at habort ⊢
    rw [List.foldl_append, List.foldl_cons] at habort ⊢
    set A := List.foldl (stepScript env) initRun pre with hA
    have hAab : A.aborted = false := by
      cases hab : A.aborted
      · rfl
      · have hstepA : stepScript env A (sid, mods) = A := by
          simp [stepScript, hab]
        rw [hstepA, foldl_stepScript_aborted env post A hab] at habort
        rw [habort] at hab
        exact Bool.noConfusion hab
    have hstepPuts : (stepScript env A (sid, mods)).puts
        = A.puts ++ [(sid, (⟨story.id, c2⟩ : Story))] := by
      by_cases hput : env.putOk sid = true
      · have hproc : processStoryScript env sid mods
            = .ok (.putDone ⟨story.id, c2⟩ true ws) := by
          unfold processStoryScript
          simp only [hne, hfetch, happly]
          simp [hput]
        simp [stepScript, hAab, hproc]
      · have hput2 : env.putOk sid = false := by
          revert hput
          cases env.putOk sid <;> simp
        have hproc : processStoryScript env sid mods
            = .ok (.putDone ⟨story.id, c2⟩ false ws) := by
          unfold processStoryScript
          simp only [hne, hfetch, happly]
          simp [hput2]
        simp [stepScript, hAab, hproc]
    obtain ⟨extra, hex, hsub⟩ := foldl_stepScript_puts env post (stepScript env A (sid, mods))
    rw [hex, hstepPuts]
    simp

/-- Claim C5, witness: in an environment serving exampleNode as the
story, its single pending edit produces the PUT of the patched
document. -/
theorem c5_witness :
    ((1 : Nat), (⟨7, exampleNode2⟩ : Story)) ∈
      (sendToServerScript exampleEnv ([] ++ (1, exampleMods) :: [])).puts :=
  c5_single_put.2 exampleEnv [] [] 1 exampleMods ⟨7, exampleNode⟩ exampleNode2 []
    rfl (by simp [exampleMods]) rfl rfl

/-- Claim C6, counterexample.  In part_000, an edit whose wrapper _uid
"zz" is nowhere in the fresh tree is silently dropped: the send applies
the other edit, PUTs the story, reports overall success, and emits no
diagnostic whatsoever (sendModificationsToServer has no missing-node
branch, so this model constructs its diagnostics list empty - the
skip-with-a-diagnostic behaviour exists only in script.js). -/
theorem c6_counterexample :
    uidTargeted "zz" c6content = false
    ∧ updateImageRecursive c6m2 c6content2 = .ok c6content2
    ∧ (sendModificationsToServer c6env [c6m1, c6m2]).puts = [(1, ⟨1, c6content2⟩)]
    ∧ (sendModificationsToServer c6env [c6m1, c6m2]).allOk = true
    ∧ (sendModificationsToServer c6env [c6m1, c6m2]).diags = [] :=
  ⟨rfl, rfl, rfl, rfl, rfl⟩

/-- Claim C6 (amended): in script.js a pending edit whose node is not
re-located leaves the document untouched, appends that image id to the
skip diagnostics, and the remaining edits of the batch are processed
from the same state; in part_000 an edit whose _uid is not re-located
also leaves the tree unchanged (so the rest of the batch is unaffected)
but produces no diagnostic. -/
theorem c6_skip_missing :
    (∀ (bid : String) (mod : ScriptMod) (rest : List (String × ScriptMod))
        (c1 : Json) (ap : Bool) (ws : List String),
      findImageInStoryContentById c1 bid = .ok none →
      applyModsAux ((bid, mod) :: rest) (c1, ap, ws) = applyModsAux rest (c1, ap, ws ++ [bid]))
    ∧ (∀ (mod : P0ModEntry) (c c2 : Json),
      uidTargeted mod.uid c = false →
      updateImageRecursive mod c = .ok c2 → c2 = c) := by
  constructor
  · intro bid mod rest c1 ap ws hfind
    show (match rewriteFirstScript c1 bid mod with
      | .error e => .error e
      | .ok (d, true) => applyModsAux rest (d, true, ws)
      | .ok (d, false) => applyModsAux rest (d, ap, ws ++ [bid]))
      = applyModsAux rest (c1, ap, ws ++ [bid])
    rw [rewriteFirst_not_found c1 bid mod hfind]
  · intro mod c c2 huid hok
    exact updateImageRecursive_noTarget c mod c2 huid hok

/-- Claim C6, witness: an edit keyed by the absent id "zz" applied to
exampleNode is recorded as skipped and leaves the document unchanged. -/
theorem c6_witness :
    applyModsAux [("zz", ⟨"n", "a"⟩)] (exampleNode, false, [])
      = applyModsAux [] (exampleNode, false, [] ++ ["zz"]) :=
  c6_skip_missing.1 "zz" ⟨"n", "a"⟩ [] exampleNode false [] rfl

/-- Claim C7, counterexample.  In part_000 all PUTs run inside one
try/catch: with an environment that fails the PUT of story 1 and would
accept story 2, a batch with pending edits on both stories issues only
the story-1 request and stops - story 2 is never attempted, so a single
story's failure does abort the remainder of the batch, and no
success/failure counts survive (the run just reports failure). -/
theorem c7_counterexample :
    (sendModificationsToServer c7p0env [c7m1, c7m2]).puts.map Prod.fst = [1]
    ∧ (sendModificationsToServer c7p0env [c7m1, c7m2]).allOk = false
    ∧ c7p0env.putOk 2 = true
    ∧ c7p0env.fetchStory 2 = some ⟨2, .obj []⟩ :=
  ⟨rfl, rfl, rfl, rfl⟩

/-- Claim C7 (amended): in script.js the send loop is compositional as
long as no uncaught exception occurred: processing xs ++ ys equals
processing xs and then ys independently, with PUT lists, diagnostics and
the success and failure counters accumulating - so a story whose fetch
fails (counted as failed, conjunct two and three) does not disturb the
processing of the remaining stories.  part_000 aborts the whole batch at
the first failure instead. -/
theorem c7_batch_continues :
    (∀ (env : ScriptEnv) (xs ys : List (Nat × List (String × ScriptMod))),
      (sendToServerScript env xs).aborted = false →
      sendToServerScript env (xs ++ ys)
        = combineRuns (sendToServerScript env xs) (sendToServerScript env ys))
    ∧ (∀ (env : ScriptEnv) (sid : Nat) (mods : List (String × ScriptMod)),
      mods ≠ [] → env.fetchStory sid = none →
      processStoryScript env sid mods = .ok .fetchFailed)
    ∧ (∀ (env : ScriptEnv) (acc : ScriptRun) (sid : Nat)
        (mods : List (String × ScriptMod)),
      acc.aborted = false →
      processStoryScript env sid mods = .ok .fetchFailed →
      stepScript env acc (sid, mods)
        = ⟨acc.puts, acc.successCount, acc.failCount + 1, acc.warns, false⟩) := by
  refine ⟨?_, ?_, ?_⟩
  · intro env xs ys h
    show List.foldl (stepScript env) initRun (xs ++ ys) = _
    rw [List.foldl_append]
    exact foldl_stepScript_combine env ys (List.foldl (stepScript env) initRun xs) h
  · intro env sid mods hmods hfetch
    have hne : mods.isEmpty = false := by
      cases mods
      · exact absurd rfl hmods
      · rfl
    unfold processStoryScript
    simp only [hne, hfetch]
    simp
  · intro env acc sid mods hab hproc
    simp [stepScript, hab, hproc]

/-- Claim C7, witness: with every fetch failing, running the two-story
batch equals running each story separately and adding up the counts. -/
theorem c7_witness :
    sendToServerScript c7env (c7xs ++ c7ys)
      = combineRuns (sendToServerScript c7env c7xs) (sendToServerScript c7env c7ys) :=
  c7_batch_continues.1 c7env c7xs c7ys rfl

/-- Claim C8 (confirmed): every PUT either variant issues carries a
freshly fetched story document - script.js: each put document is the
fetch of that story id made inside the send loop with the pending
modification list applied to the fetched content; part_000: each put
document keeps the id of the freshly fetched copy of that story and its
content derives from the fetched content by updateImageRecursive passes
only.  Neither send path can submit a browse-time cached copy, because
the put documents are constructed from the fetch results alone. -/
theorem c8_fresh_fetch :
    (∀ (env : ScriptEnv) (entries : List (Nat × List (String × ScriptMod)))
        (p : Nat × Story), p ∈ (sendToServerScript env entries).puts →
      ∃ story mods c2 ws, env.fetchStory p.1 = some story ∧
        applyModsAux mods (story.content, false, []) = .ok (c2, true, ws) ∧
        p.2 = ⟨story.id, c2⟩)
    ∧ (∀ (env : ScriptEnv) (mods : List P0ModEntry) (p : Nat × Story),
      p ∈ (sendModificationsToServer env mods).puts →
      ∃ story, env.fetchStory p.1 = some story ∧ p.2.id = story.id ∧
        UpdateReach story.content p.2.content) := by
  constructor
  · intro env entries p hp
    refine foldl_stepScript_puts_fresh env entries initRun ?_ p hp
    intro q hq
    exact absurd hq (by simp [initRun])
  · intro env mods p hp
    simp only [sendModificationsToServer] at hp
    cases hg : gatherStories env mods [] with
    | error e =>
      simp only [hg] at hp
      exact absurd hp (by simp)
    | ok stories =>
      simp only [hg] at hp
      cases ha : applyModsP0 mods stories with
      | error e =>
        simp only [ha] at hp
        exact absurd hp (by simp)
      | ok stories2 =>
        simp only [ha] at hp
        have hp2 : p ∈ (putStoriesP0 env stories2).1 := hp
        have hp3 := putStoriesP0_sub env stories2 p hp2
        obtain ⟨st0, hmem, hid, hreach⟩ := applyModsP0_sound mods stories stories2 ha p hp3
        have hfetch : env.fetchStory p.1 = some st0 :=
          gatherStories_sound env mods [] (by intro q hq; exact absurd hq (by simp))
            stories hg (p.1, st0) hmem
        exact ⟨st0, hfetch, hid, hreach⟩

/-- Claim C8, witness: the single PUT of the exampleEnv run is the fresh
fetch of story 1 with its pending modifications applied. -/
theorem c8_witness :
    ∃ story mods c2 ws,
      exampleEnv.fetchStory ((1 : Nat), (⟨7, exampleNode2⟩ : Story)).1 = some story ∧
      applyModsAux mods (story.content, false, []) = .ok (c2, true, ws) ∧
      ((1 : Nat), (⟨7, exampleNode2⟩ : Story)).2 = ⟨story.id, c2⟩ :=
  c8_fresh_fetch.1 exampleEnv [(1, exampleMods)] (1, ⟨7, exampleNode2⟩)
    (List.Mem.head _)
